import Mathlib

/-!
# Verification of `VdwRadiusProvider`, `HistogramDensityEstimator` and
`OptimisedDirectionProbePathFinder`

Shallow embedding of

* `src/src/path-finding/vdw_radius_provider.cpp`
* `src/src/statistics/histogram_density_estimation.cpp`
* `src/src/path-finding/optimised_direction_probe_path_finder.cpp`

Conventions of the embedding.

* A stored value of the floating point type `real` is modelled by `ℚ`, a number
  with exact comparison.  An argument of type `real` handed in by a caller is a
  `RealArg`, a number or NaN.  The conversion from `double` to `real`, whose
  precision depends on the build, is the parameter `doubleToReal`.  Infinities
  are outside the model, and so is the rounding of arithmetic: the definitions of
  the histogram estimator compute in exact arithmetic.
* A member function that may throw returns `Except Fault α`; a member function
  that also mutates the object returns the object after the call together with
  the outcome, because a C++ exception leaves the object alive.
* `Fault.undefined_behaviour` stands for a failed library precondition
  (an assertion of the JSON library, an out-of-range subscript).  It is not a
  C++ exception and cannot be caught.
* `std::vector` is `List`, `push_back` is append at the end, an iterator is the
  offset from `begin()` and `end()` is the length.
-/

namespace Chap

/-! ## Outcomes -/

/-- The ways a call can fail.  The first two are the C++ exceptions thrown by
the code, with their `what()` text. -/
inductive Fault where
  | runtime_error (what : String)
  | logic_error (what : String)
  | undefined_behaviour
  deriving DecidableEq, Repr

deriving instance DecidableEq for Except

/-- A result is a thrown C++ exception. -/
def Throws {α : Type} : Except Fault α → Prop
  | .error (.runtime_error _) => True
  | .error (.logic_error _) => True
  | _ => False

instance {α : Type} (r : Except Fault α) : Decidable (Throws r) := by
  unfold Throws
  split <;> infer_instance

/-! ## Data model of `VdwRadiusProvider` -/

/-- Abstraction of `real`. -/
abbrev real := ℚ

/-- A value of type `real` as a caller can pass it: a number or NaN. -/
inductive RealArg where
  | nan
  | num (q : real)
  deriving DecidableEq, Repr

/-- The comparison `x >= 0` of the language: false for NaN. -/
def RealArg.GeZero : RealArg → Prop
  | .nan => False
  | .num q => q ≥ 0

/-- The comparison `x < 0` of the language: false for NaN. -/
def RealArg.LtZero : RealArg → Prop
  | .nan => False
  | .num q => q < 0

instance (x : RealArg) : Decidable x.GeZero := by
  cases x <;> unfold RealArg.GeZero <;> infer_instance

instance (x : RealArg) : Decidable x.LtZero := by
  cases x <;> unfold RealArg.LtZero <;> infer_instance

/-- The struct `VdwRadiusRecord`. -/
structure VdwRadiusRecord where
  atmName_ : String
  resName_ : String
  vdwRad_ : real
  deriving DecidableEq, Repr

/-- The data members of class `VdwRadiusProvider`. -/
structure VdwRadiusProvider where
  defRad_ : real
  vdwRadiusLookupTable_ : List VdwRadiusRecord
  deriving DecidableEq, Repr

namespace VdwRadiusProvider

/-- The constructor `VdwRadiusProvider::VdwRadiusProvider()`: `defRad_(-1.0)`,
the table default-constructed. -/
def new : VdwRadiusProvider :=
  { defRad_ := -1, vdwRadiusLookupTable_ := [] }

/-- The loop of `matchAtmName`: walks the table from `begin()` and pushes every
record with equal atom name to the back of `matches`. -/
def matchAtmNameLoop (atmName : String) :
    List VdwRadiusRecord → List VdwRadiusRecord → List VdwRadiusRecord
  | [], cands => cands
  | it :: rest, cands =>
      if it.atmName_ = atmName then matchAtmNameLoop atmName rest (cands ++ [it])
      else matchAtmNameLoop atmName rest cands

/-- The member `VdwRadiusProvider::matchAtmName`. -/
def matchAtmName (p : VdwRadiusProvider) (atmName : String) : List VdwRadiusRecord :=
  matchAtmNameLoop atmName p.vdwRadiusLookupTable_ []

/-- The member `VdwRadiusProvider::matchResName`: the offset of the first record
with equal residue name, or the offset of `records.end()`. -/
def matchResName (resName : String) : List VdwRadiusRecord → Nat
  | [] => 0
  | it :: rest => if it.resName_ = resName then 0 else matchResName resName rest + 1

/-- The member `VdwRadiusProvider::returnDefaultRadius`. -/
def returnDefaultRadius (p : VdwRadiusProvider) (atmName resName : String) :
    Except Fault real :=
  if p.defRad_ ≥ 0 then
    .ok p.defRad_
  else
    .error (.runtime_error
      ("ERROR: Could not find van der Waals radius for atom with atom name " ++ atmName ++
        " and residue name " ++ resName ++ " and default radius is not set."))

/-- The expression `it -> vdwRad_` for an iterator into `records`. -/
def derefVdwRad (records : List VdwRadiusRecord) (it : Nat) : Except Fault real :=
  match records.get? it with
  | some rec => .ok rec.vdwRad_
  | none => .error .undefined_behaviour

/-- The call `std::transform(elemSym.begin(), elemSym.end(), elemSym.begin(), ::toupper)`. -/
def toupper (elemSym : String) : String :=
  ⟨elemSym.data.map Char.toUpper⟩

/-- The member `VdwRadiusProvider::vdwRadiusForAtom`. -/
def vdwRadiusForAtom (p : VdwRadiusProvider) (atmName resName elemSym : String) :
    Except Fault real :=
  let atmNameMatches := p.matchAtmName atmName
  if atmNameMatches.length > 0 then
    let it := matchResName resName atmNameMatches
    if it = atmNameMatches.length then
      let it := matchResName "???" atmNameMatches
      if it = atmNameMatches.length then
        p.returnDefaultRadius atmName resName
      else
        derefVdwRad atmNameMatches it
    else
      derefVdwRad atmNameMatches it
  else
    let elemSym := toupper elemSym
    let elemNameMatches := p.matchAtmName elemSym
    if elemNameMatches.length > 0 then
      let it := matchResName resName elemNameMatches
      if it = elemNameMatches.length then
        let it := matchResName "???" elemNameMatches
        if it = elemNameMatches.length then
          p.returnDefaultRadius atmName resName
        else
          derefVdwRad elemNameMatches it
      else
        derefVdwRad elemNameMatches it
    else
      p.returnDefaultRadius atmName resName

/-- The member `VdwRadiusProvider::setDefaultVdwRadius`: the object after the
call and the outcome.  For a NaN argument the comparison `defRad >= 0` is false. -/
def setDefaultVdwRadius (p : VdwRadiusProvider) (defRad : RealArg) :
    VdwRadiusProvider × Except Fault Unit :=
  match defRad with
  | .num defRad =>
      if defRad ≥ 0 then
        ({ p with defRad_ := defRad }, .ok ())
      else
        (p, .error (.runtime_error "Default van der Waals radius may not be negative."))
  | .nan =>
      (p, .error (.runtime_error "Default van der Waals radius may not be negative."))

end VdwRadiusProvider

/-! ## The JSON document handed to `lookupTableFromJson`

`rapidjson::Document` is a library type.  A value is one of the six JSON kinds;
an object keeps its members in document order and may repeat a name.  The
accessors below follow the library: every accessor asserts the kind of the
value it is called on, member search returns the first member of that name. -/

/-- A parsed JSON value (`rapidjson::Value`). -/
inductive Json where
  | null
  | bool (b : Bool)
  | number (q : ℚ)
  | string (s : String)
  | array (elems : List Json)
  | object (members : List (String × Json))

namespace Json

/-- Library call `IsObject()`. -/
def IsObject : Json → Bool
  | object _ => true
  | _ => false

/-- Library call `IsArray()`. -/
def IsArray : Json → Bool
  | array _ => true
  | _ => false

/-- Library call `IsString()`. -/
def IsString : Json → Bool
  | string _ => true
  | _ => false

/-- Library call `IsNumber()`. -/
def IsNumber : Json → Bool
  | number _ => true
  | _ => false

/-- Library call `FindMember(name)` on the member list of an object: the first
member with that name. -/
def FindMember (name : String) : List (String × Json) → Option Json
  | [] => none
  | (k, v) :: rest => if k = name then some v else FindMember name rest

/-- Library call `HasMember(name)`; it asserts `IsObject()`. -/
def HasMember (v : Json) (name : String) : Except Fault Bool :=
  match v with
  | object members => .ok (FindMember name members).isSome
  | _ => .error .undefined_behaviour

/-- Library call `operator[](name)`; it asserts `IsObject()` and that the member
exists. -/
def getMember (v : Json) (name : String) : Except Fault Json :=
  match v with
  | object members =>
      match FindMember name members with
      | some m => .ok m
      | none => .error .undefined_behaviour
  | _ => .error .undefined_behaviour

/-- Library call `GetString()`; it asserts `IsString()`. -/
def GetString : Json → Except Fault String
  | string s => .ok s
  | _ => .error .undefined_behaviour

/-- Library call `GetDouble()`; it asserts `IsNumber()`. -/
def GetDouble : Json → Except Fault real
  | number q => .ok q
  | _ => .error .undefined_behaviour

/-- The range `Begin() .. End()`; both calls assert `IsArray()`. -/
def elements : Json → Except Fault (List Json)
  | array elems => .ok elems
  | _ => .error .undefined_behaviour

/-- The condition `v.HasMember(name) == false || v[name].isType() == false`,
with the short-circuit evaluation of `||`. -/
def lacksMember (v : Json) (name : String) (isType : Json → Bool) : Except Fault Bool :=
  match v.HasMember name with
  | .error f => .error f
  | .ok false => .ok true
  | .ok true =>
      match v.getMember name with
      | .error f => .error f
      | .ok m => .ok (isType m == false)

end Json

namespace VdwRadiusProvider

/-- The conversion of the `const char*` returned by `GetString()` to
`std::string`: the characters before the first NUL character. -/
def cString (s : String) : String :=
  ⟨s.data.takeWhile (fun c => c ≠ Char.ofNat 0)⟩

/-- The body of the loop of `lookupTableFromJson` up to the `push_back`: the
three checks, then the record built from the entry.  The two names are assigned
from `GetString()`, a `const char*`; the radius is assigned from `GetDouble()`, a
`double`, to a `real`, which is the conversion `doubleToReal`. -/
def recordFromJson (doubleToReal : ℚ → real) (it : Json) : Except Fault VdwRadiusRecord :=
  match it.lacksMember "atomname" Json.IsString with
  | .error f => .error f
  | .ok true => .error (.runtime_error
      "No 'atomname' attribute of type 'string' in van der Waals radius record.")
  | .ok false =>
  match it.lacksMember "resname" Json.IsString with
  | .error f => .error f
  | .ok true => .error (.runtime_error
      "No 'resname' attribute of type 'string' in van der Waals radius record.")
  | .ok false =>
  match it.lacksMember "vdwr" Json.IsNumber with
  | .error f => .error f
  | .ok true => .error (.runtime_error
      "No 'vdwr' attribute of type 'number' in van der Waals radius record.")
  | .ok false =>
  match it.getMember "atomname" >>= Json.GetString,
        it.getMember "resname" >>= Json.GetString,
        it.getMember "vdwr" >>= Json.GetDouble with
  | .ok a, .ok r, .ok q =>
      .ok { atmName_ := cString a, resName_ := cString r, vdwRad_ := doubleToReal q }
  | .error f, _, _ => .error f
  | _, .error f, _ => .error f
  | _, _, .error f => .error f

/-- The record that the loop body builds from the three values read from an
entry. -/
def storedRecord (doubleToReal : ℚ → real) (t : VdwRadiusRecord) : VdwRadiusRecord :=
  { atmName_ := cString t.atmName_, resName_ := cString t.resName_,
    vdwRad_ := doubleToReal t.vdwRad_ }

/-- The loop of `lookupTableFromJson` over the entries from `it` to `End()`. -/
def lookupTableLoop (doubleToReal : ℚ → real) :
    List Json → VdwRadiusProvider → VdwRadiusProvider × Except Fault Unit
  | [], p => (p, .ok ())
  | it :: rest, p =>
      match recordFromJson doubleToReal it with
      | .error f => (p, .error f)
      | .ok rec =>
          lookupTableLoop doubleToReal rest
            { p with vdwRadiusLookupTable_ := p.vdwRadiusLookupTable_ ++ [rec] }

/-- The member `VdwRadiusProvider::lookupTableFromJson`: the object after the
call and the outcome. -/
def lookupTableFromJson (p : VdwRadiusProvider) (doubleToReal : ℚ → real) (jsonDoc : Json) :
    VdwRadiusProvider × Except Fault Unit :=
  if jsonDoc.IsObject = false then
    (p, .error (.runtime_error "No valid JSON object provided."))
  else
    match jsonDoc.lacksMember "vdwradii" Json.IsArray with
    | .error f => (p, .error f)
    | .ok true => (p, .error (.runtime_error "Provided JSON does not contain vdwradii array."))
    | .ok false =>
        match jsonDoc.getMember "vdwradii" >>= Json.elements with
        | .error f => (p, .error f)
        | .ok vdwRadiiEntries =>
            lookupTableLoop doubleToReal vdwRadiiEntries { p with vdwRadiusLookupTable_ := [] }

end VdwRadiusProvider

/-! ## Topology and `vdwRadiiForTopology` -/

/-- The fields of the library struct `t_atom` that the code reads. -/
structure t_atom where
  resind : Int
  elem : String

/-- The field of the library struct `t_resinfo` that the code reads. -/
structure t_resinfo where
  name : String

/-- The fields of the library struct `t_atoms` that the code reads. -/
structure t_atoms where
  nr : Int
  atom : List t_atom
  atomname : List String
  resinfo : List t_resinfo

/-- The library type `gmx::TopologyInformation`, reduced to
`top.topology() -> atoms`. -/
structure TopologyInformation where
  atoms : t_atoms

/-- The subscript `xs[i]` of a C array with an `int` index. -/
def subscript {α : Type} (xs : List α) (i : Int) : Except Fault α :=
  if 0 ≤ i then
    match xs.get? i.toNat with
    | some x => .ok x
    | none => .error .undefined_behaviour
  else
    .error .undefined_behaviour

/-- The type `std::unordered_map<int, real>`: at most one value per key. -/
abbrev RadiusMap := AList (fun _ : Int => real)

namespace VdwRadiusProvider

/-- The three strings read for atom `id` in the loop of `vdwRadiiForTopology`:
atom name, residue name, element symbol. -/
def atomStrings (atoms : t_atoms) (id : Int) : Except Fault (String × String × String) :=
  match subscript atoms.atomname id, subscript atoms.atom id with
  | .ok atmName, .ok a =>
      match subscript atoms.resinfo a.resind with
      | .ok res => .ok (atmName, res.name, a.elem)
      | .error f => .error f
  | .error f, _ => .error f
  | _, .error f => .error f

/-- The loop of `vdwRadiiForTopology` over the remaining ids, `vdwRadii` being
the map built so far. -/
def vdwRadiiLoop (p : VdwRadiusProvider) (atoms : t_atoms) :
    List Int → RadiusMap → Except Fault RadiusMap
  | [], vdwRadii => .ok vdwRadii
  | id :: rest, vdwRadii =>
      match atomStrings atoms id with
      | .error f => .error f
      | .ok (atmName, resName, elemSym) =>
          match p.vdwRadiusForAtom atmName resName elemSym with
          | .error f => .error f
          | .ok rad => vdwRadiiLoop p atoms rest (vdwRadii.insert id rad)

/-- The member `VdwRadiusProvider::vdwRadiiForTopology`. -/
def vdwRadiiForTopology (p : VdwRadiusProvider) (top : TopologyInformation)
    (mappedIds : List Int) : Except Fault RadiusMap :=
  vdwRadiiLoop p top.atoms mappedIds ∅

/-! ## Sequences of calls on one provider -/

/-- A call of one of the two mutating public members. -/
inductive Call where
  | setDefaultVdwRadius (defRad : RealArg)
  | lookupTableFromJson (jsonDoc : Json)

/-- Execute one call. -/
def exec (p : VdwRadiusProvider) (doubleToReal : ℚ → real) :
    Call → VdwRadiusProvider × Except Fault Unit
  | .setDefaultVdwRadius defRad => p.setDefaultVdwRadius defRad
  | .lookupTableFromJson jsonDoc => p.lookupTableFromJson doubleToReal jsonDoc

/-- Run a sequence of calls on `p`, the caller catching every exception.  The
second component logs, in call order, the arguments of the calls of
`setDefaultVdwRadius` that returned normally.  The run has no result once a call
has undefined behaviour. -/
def run (doubleToReal : ℚ → real) :
    VdwRadiusProvider → List Call → List real → Option (VdwRadiusProvider × List real)
  | p, [], log => some (p, log)
  | p, c :: cs, log =>
      match exec p doubleToReal c, c with
      | (_, .error .undefined_behaviour), _ => none
      | (p', .ok ()), .setDefaultVdwRadius (.num defRad) =>
          run doubleToReal p' cs (log ++ [defRad])
      | (p', _), _ => run doubleToReal p' cs log

end VdwRadiusProvider

/-! ## Data model of `HistogramDensityEstimator` -/

/-- The data member of class `HistogramDensityEstimator`. -/
structure HistogramDensityEstimator where
  binWidth_ : real
  deriving DecidableEq, Repr

namespace HistogramDensityEstimator

/-- The constructor: `binWidth_(0.0)`. -/
def new : HistogramDensityEstimator :=
  { binWidth_ := 0 }

/-- The member `HistogramDensityEstimator::setBinWidth`: the object after the
call and the outcome. -/
def setBinWidth (h : HistogramDensityEstimator) (binWidth : real) :
    HistogramDensityEstimator × Except Fault Unit :=
  if binWidth ≤ 0 then
    (h, .error (.logic_error "Histogram bin width must be positive!"))
  else
    ({ h with binWidth_ := binWidth }, .ok ())

/-- The call `std::sort(samples.begin(), samples.end())`. -/
def sort (samples : List real) : List real :=
  samples.insertionSort (· ≤ ·)

/-- The `while` loop of `createBreaks`, with the sum `breaks.back() + binWidth_`
computed exactly, not rounded to `real`.  `none` means that the fuel ran out
before the loop condition became false. -/
def createBreaksLoop (h : HistogramDensityEstimator) (rangeHi halfBinWidth : real) :
    Nat → List real → Option (List real)
  | 0, _ => none
  | fuel + 1, breaks =>
      if breaks.getLastD 0 ≤ rangeHi + 3 * halfBinWidth then
        createBreaksLoop h rangeHi halfBinWidth fuel
          (breaks ++ [breaks.getLastD 0 + h.binWidth_])
      else
        some breaks

/-- The member `HistogramDensityEstimator::createBreaks`. -/
def createBreaks (h : HistogramDensityEstimator) (fuel : Nat) (rangeLo rangeHi : real) :
    Option (List real) :=
  let halfBinWidth := (1 / 2) * h.binWidth_
  let breaksLo := rangeLo - 3 * halfBinWidth
  createBreaksLoop h rangeHi halfBinWidth fuel [breaksLo]

/-- The member `HistogramDensityEstimator::createMidpoints`: every break but the
last, plus `binWidth_`. -/
def createMidpoints (h : HistogramDensityEstimator) (breaks : List real) : List real :=
  breaks.dropLast.map (· + h.binWidth_)

/-- The call `std::upper_bound(first, samples.end(), value)` on a sorted range.
An iterator into `samples` is represented by the range from it to
`samples.end()`; the result is the range that starts at the first element greater
than `value`. -/
def upper_bound (first : List real) (value : real) : List real :=
  first.dropWhile (· ≤ value)

/-- The counting loop of `calculateDensity` over the remaining breaks, with the
iterator `boundLo` and the counts pushed so far. -/
def countLoop : List real → List real → List Nat → List Nat
  | b0 :: b1 :: rest, boundLo, counts =>
      let boundLo := upper_bound boundLo b0
      let boundHi := upper_bound boundLo b1
      countLoop (b1 :: rest) boundLo (counts ++ [boundLo.length - boundHi.length])
  | _, _, counts => counts

/-- The member `HistogramDensityEstimator::calculateDensity`. -/
def calculateDensity (samples breaks : List real) : Except Fault (List real) :=
  match breaks with
  | [] => .error .undefined_behaviour
  | _ :: _ =>
      let counts := countLoop breaks samples []
      let sum := counts.sum
      if sum ≠ samples.length then
        .error (.logic_error ("Histogram counts sum to " ++ toString sum ++
          " but number of samples is " ++ toString samples.length ++ "!"))
      else
        match counts.head?, counts.getLast? with
        | some front, some back =>
            if front ≠ 0 ∨ back ≠ 0 then
              .error (.logic_error "Histogram endpoint bins are not empty!")
            else
              .ok (counts.map (fun c : Nat => (c : real) / (sum : real)))
        | _, _ => .error .undefined_behaviour

/-- The member `HistogramDensityEstimator::estimate`.  The result is the sample
vector after the call together with the outcome; `Interp` is the call operator of
`LinearSplineInterp1D`, a class outside these sources.  `none` means that the fuel
of `createBreaks` ran out. -/
def estimate {SplineCurve1D : Type} (Interp : List real → List real → SplineCurve1D)
    (h : HistogramDensityEstimator) (fuel : Nat) (samples : List real) :
    Option (List real × Except Fault SplineCurve1D) :=
  if h.binWidth_ ≤ 0 then
    some (samples, .error (.logic_error "Histogram bin width must be a positive number!"))
  else
    let samples := sort samples
    match samples.head?, samples.getLast? with
    | some front, some back =>
        match h.createBreaks fuel front back with
        | none => none
        | some breaks =>
            let midpoints := h.createMidpoints breaks
            if midpoints.length > 25000 then
              some (samples, .error (.runtime_error
                "Number of bins exceeds limit for spline interpolation! Need to increase bin width."))
            else
              match calculateDensity samples breaks with
              | .error f => some (samples, .error f)
              | .ok density =>
                  if density.length ≠ midpoints.length then
                    some (samples, .error (.logic_error ("Histogram has " ++
                      toString density.length ++ " and " ++ toString midpoints.length ++
                      " midpoints!")))
                  else
                    some (samples,
                      .ok (Interp midpoints (density.map (· * (1 / h.binWidth_)))))
    | _, _ => some (samples, .error .undefined_behaviour)

end HistogramDensityEstimator

/-! ## Data model of `OptimisedDirectionProbePathFinder`

The data members are inherited from `AbstractProbePathFinder`, a class outside
these sources; the structure lists the members that the member functions name. -/

/-- The library type `gmx::RVec`: three coordinates. -/
structure RVec where
  x : real
  y : real
  z : real
  deriving DecidableEq, Repr

/-- The subscript `v[j]` of a `gmx::RVec`. -/
def RVec.get (v : RVec) (j : Fin 3) : real :=
  match j with
  | 0 => v.x
  | 1 => v.y
  | 2 => v.z

/-- The data members of class `OptimisedDirectionProbePathFinder`. -/
structure OptimisedDirectionProbePathFinder where
  probeStepLength_ : real
  maxProbeRadius_ : real
  maxProbeSteps_ : Int
  chanDirVec_ : RVec
  initProbePos_ : RVec
  crntProbePos_ : RVec
  orthVecU_ : RVec
  orthVecW_ : RVec
  path_ : List RVec
  radii_ : List real
  deriving DecidableEq, Repr

namespace OptimisedDirectionProbePathFinder

/-- The member `OptimisedDirectionProbePathFinder::optimiseInitialPos`.  Its whole
body is inside a comment: the call returns without reading or writing a member. -/
def optimiseInitialPos (self : OptimisedDirectionProbePathFinder) :
    OptimisedDirectionProbePathFinder :=
  self

/-- The member `OptimisedDirectionProbePathFinder::advanceAndOptimise`.  Its whole
body is inside a comment: no loop is entered, no cost function is called, and the
call returns without reading or writing a member, for either value of `forward`. -/
def advanceAndOptimise (self : OptimisedDirectionProbePathFinder) (forward : Bool) :
    OptimisedDirectionProbePathFinder :=
  self

/-- The member `OptimisedDirectionProbePathFinder::findPath`: the object after the
call and the text written to `std::cout`.  The calls of `optimiseInitialPos` and
`advanceAndOptimise` and the two `std::reverse` are inside a comment; the only
statement is the output of `Yo!` and a line end. -/
def findPath (self : OptimisedDirectionProbePathFinder) :
    OptimisedDirectionProbePathFinder × String :=
  (self, "Yo!\n")

/-- The member `OptimisedDirectionProbePathFinder::optimToConfig`.  The three
assignments to `configSpacePos` are inside a comment, so the function returns the
local `gmx::RVec configSpacePos` as its default constructor left it.  That value
is the parameter `configSpacePos`; `optimSpacePos` holds the two coordinates of
the state. -/
def optimToConfig (self : OptimisedDirectionProbePathFinder) (configSpacePos : RVec)
    (optimSpacePos : real × real) : RVec :=
  configSpacePos

end OptimisedDirectionProbePathFinder

/-! ## Definitions that follow the wording of the specification -/

namespace VdwRadiusProvider

/-- The lookup rule in the words of the specification, applied to a list of
candidate records: the first record with the exact residue name, else the first
record with the generic residue name `???`, else the default radius (whose error
text names the queried atom and residue). -/
def residueRule (p : VdwRadiusProvider) (cands : List VdwRadiusRecord)
    (atmName resName : String) : Except Fault real :=
  match cands.find? (fun rec => rec.resName_ = resName) with
  | some rec => .ok rec.vdwRad_
  | none =>
      match cands.find? (fun rec => rec.resName_ = "???") with
      | some rec => .ok rec.vdwRad_
      | none => p.returnDefaultRadius atmName resName

/-- The records of a table with a given atom name, in table order. -/
def recordsNamed (table : List VdwRadiusRecord) (atmName : String) : List VdwRadiusRecord :=
  table.filter (fun rec => rec.atmName_ = atmName)

/-- In the words of the specification: no match is found in the lookup table for
a query.  The candidates are the records named like the atom when there are any,
the records named like the upper-cased element otherwise; none of them has the
residue name of the query or the generic residue name. -/
def NoMatch (table : List VdwRadiusRecord) (atmName resName elemSym : String) : Prop :=
  if ∃ x ∈ table, x.atmName_ = atmName then
    ∀ x ∈ table, x.atmName_ = atmName → x.resName_ ≠ resName ∧ x.resName_ ≠ "???"
  else
    ∀ x ∈ table, x.atmName_ = toupper elemSym → x.resName_ ≠ resName ∧ x.resName_ ≠ "???"

instance (table : List VdwRadiusRecord) (atmName resName elemSym : String) :
    Decidable (NoMatch table atmName resName elemSym) := by
  unfold NoMatch
  infer_instance

/-- The state of `defRad_` after a run: the constructor value while the log is
empty, the last logged value, which is not negative, otherwise. -/
def DefRadInv (p : VdwRadiusProvider) (log : List real) : Prop :=
  (log = [] ∧ p.defRad_ = -1) ∨ (∃ d, log.getLast? = some d ∧ p.defRad_ = d ∧ 0 ≤ d)

end VdwRadiusProvider

namespace Json

/-- The member of an object under a name: the first one in document order, as
found by member search.  A value that is not an object has no members. -/
def member (v : Json) (name : String) : Option Json :=
  match v with
  | object members => (members.find? (fun kv => kv.1 = name)).map Prod.snd
  | _ => none

/-- An entry lacks a string member of the given name. -/
def LacksString (entry : Json) (name : String) : Prop :=
  ∀ s, entry.member name ≠ some (string s)

/-- An entry lacks a number member of the given name. -/
def LacksNumber (entry : Json) (name : String) : Prop :=
  ∀ q, entry.member name ≠ some (number q)

/-- The `(atomname, resname, vdwr)` triple of an entry of the `vdwradii` array,
when the entry has the three members with the right kinds. -/
def entryTriple (entry : Json) : Option VdwRadiusRecord :=
  match entry.member "atomname", entry.member "resname", entry.member "vdwr" with
  | some (string a), some (string r), some (number q) =>
      some { atmName_ := a, resName_ := r, vdwRad_ := q }
  | _, _, _ => none

/-- The string `stored` is `full` read as a C string: `stored` has no NUL
character, `full` starts with `stored`, and what follows in `full` is nothing or
starts with a NUL character. -/
def IsCStringOf (stored full : String) : Prop :=
  (∀ c ∈ stored.data, c ≠ Char.ofNat 0) ∧
    ∃ rest, full.data = stored.data ++ rest ∧
      (rest = [] ∨ rest.head? = some (Char.ofNat 0))

/-- The record `rec` is what the language stores for the triple `t` of an entry:
the two names read as C strings and the radius converted from `double` to
`real`. -/
def StoredFor (doubleToReal : ℚ → real) (t rec : VdwRadiusRecord) : Prop :=
  IsCStringOf rec.atmName_ t.atmName_ ∧ IsCStringOf rec.resName_ t.resName_ ∧
    rec.vdwRad_ = doubleToReal t.vdwRad_

/-- A well-formed document: the root is an object whose member `vdwradii` is the
array `entries`, and every entry has its triple. -/
def WellFormed (jsonDoc : Json) (entries : List Json) : Prop :=
  jsonDoc.member "vdwradii" = some (array entries) ∧
    ∀ entry ∈ entries, (entryTriple entry).isSome

/-- The condition under which the specification says `lookupTableFromJson`
throws: the root is not an object, or it has no member `vdwradii` that is an
array, or some entry of that array lacks a string member `atomname`, a string
member `resname` or a number member `vdwr`. -/
def Rejected (jsonDoc : Json) : Prop :=
  jsonDoc.IsObject = false ∨
    (∀ entries, jsonDoc.member "vdwradii" ≠ some (array entries)) ∨
    ∃ entries, jsonDoc.member "vdwradii" = some (array entries) ∧
      ∃ entry ∈ entries, entry.LacksString "atomname" ∨ entry.LacksString "resname" ∨
        entry.LacksNumber "vdwr"

end Json

/-- A valid atom index of a topology: it is within the arrays `atomname` and
`atom`, and the residue index of the atom is within `resinfo`. -/
def ValidId (atoms : t_atoms) (id : Int) : Prop :=
  0 ≤ id ∧ id.toNat < atoms.atomname.length ∧
    ∃ a, atoms.atom.get? id.toNat = some a ∧
      0 ≤ a.resind ∧ a.resind.toNat < atoms.resinfo.length

/-- The atom name of atom `id`. -/
def atomName (atoms : t_atoms) (id : Int) : String :=
  (atoms.atomname.get? id.toNat).getD ""

/-- The element of atom `id`. -/
def atomElement (atoms : t_atoms) (id : Int) : String :=
  ((atoms.atom.get? id.toNat).map (fun a => a.elem)).getD ""

/-- The name of the residue of atom `id`. -/
def residueName (atoms : t_atoms) (id : Int) : String :=
  (((atoms.atom.get? id.toNat).bind (fun a => atoms.resinfo.get? a.resind.toNat)).map
    (fun res => res.name)).getD ""

/-- The lookup for atom `id` of a topology:
`vdwRadiusForAtom(atom name of id, name of the residue of id, element of id)`. -/
def VdwRadiusProvider.radiusOfAtom (p : VdwRadiusProvider) (atoms : t_atoms) (id : Int) :
    Except Fault real :=
  p.vdwRadiusForAtom (atomName atoms id) (residueName atoms id) (atomElement atoms id)

/-- A topology of two atoms in one residue, used to instantiate the statement on
`vdwRadiiForTopology`. -/
def sampleTopology : TopologyInformation :=
  { atoms :=
      { nr := 2
        atom := [{ resind := 0, elem := "C" }, { resind := 0, elem := "N" }]
        atomname := ["CA", "N"]
        resinfo := [{ name := "ALA" }] } }

/-- A provider with a two-record table and no default, used with `sampleTopology`. -/
def sampleProvider : VdwRadiusProvider :=
  { defRad_ := -1, vdwRadiusLookupTable_ := [⟨"CA", "???", 3⟩, ⟨"N", "???", 2⟩] }

/-- The point `planeOrigin + a·u + b·w` of the specification, with the current
probe position as plane origin and `orthVecU_`, `orthVecW_` as in-plane vectors. -/
def OptimisedDirectionProbePathFinder.planePoint (self : OptimisedDirectionProbePathFinder)
    (a b : real) : RVec :=
  { x := self.crntProbePos_.x + a * self.orthVecU_.x + b * self.orthVecW_.x
    y := self.crntProbePos_.y + a * self.orthVecU_.y + b * self.orthVecW_.y
    z := self.crntProbePos_.z + a * self.orthVecU_.z + b * self.orthVecW_.z }

/-- A finder with an empty path, probe position `(1, 0, 0)` and in-plane vectors
`(0, 1, 0)` and `(0, 0, 1)`. -/
def sampleFinder : OptimisedDirectionProbePathFinder :=
  { probeStepLength_ := 1
    maxProbeRadius_ := 3
    maxProbeSteps_ := 10
    chanDirVec_ := ⟨1, 0, 0⟩
    initProbePos_ := ⟨1, 0, 0⟩
    crntProbePos_ := ⟨1, 0, 0⟩
    orthVecU_ := ⟨0, 1, 0⟩
    orthVecW_ := ⟨0, 0, 1⟩
    path_ := []
    radii_ := [] }

namespace HistogramDensityEstimator

/-- The equally spaced points `start, start + step, …, start + n·step`. -/
def equallySpaced (start step : real) : Nat → List real
  | 0 => [start]
  | n + 1 => start :: equallySpaced (start + step) step n

/-- The number of samples in the bin `(a, b]`. -/
def binCount (samples : List real) (a b : real) : Nat :=
  samples.countP (fun s => a < s ∧ s ≤ b)

/-- The histogram counts of the samples: one bin count per pair of consecutive
breaks. -/
def binCounts (samples : List real) : List real → List Nat
  | b0 :: b1 :: rest => binCount samples b0 b1 :: binCounts samples (b1 :: rest)
  | _ => []

/-- The number of bins named by the specification, `floor((hi - lo) / w) + 4`. -/
def numBins (lo hi w : real) : Int :=
  ⌊(hi - lo) / w⌋ + 4

/-- The knot values of the specification for `n` bins of width `w` starting 1.5
bin widths below `lo`: the histogram counts divided by `N · w`, `N` being the
number of samples. -/
def histogramDensity (samples : List real) (lo w : real) (n : Nat) : List real :=
  (binCounts samples (equallySpaced (lo - 3 / 2 * w) w n)).map
    (fun c : Nat => (c : real) / ((samples.length : real) * w))

/-- Modelled from the spec: the curve built by `LinearSplineInterp1D`, a class
outside these sources, is the piecewise-linear interpolant through the points
`(x_i, f_i)` with constant extrapolation.  This is its integral over the range of
the knots, the sum of the trapezoids between consecutive knots.  Left of the
knots the curve has the first value and right of them the last value, so when
both are zero this is the integral over the whole line. -/
def integralOfInterpolant : List real → List real → real
  | x0 :: x1 :: xs, f0 :: f1 :: fs =>
      (x1 - x0) * (f0 + f1) / 2 + integralOfInterpolant (x1 :: xs) (f1 :: fs)
  | _, _ => 0

end HistogramDensityEstimator

/-! ## Auxiliary lemmas on the lookup -/

namespace VdwRadiusProvider

theorem matchAtmNameLoop_eq (atmName : String) (table cands : List VdwRadiusRecord) :
    matchAtmNameLoop atmName table cands = cands ++ recordsNamed table atmName := by
  induction table generalizing cands with
  | nil => simp [matchAtmNameLoop, recordsNamed]
  | cons it rest ih =>
      by_cases h : it.atmName_ = atmName
      · simp [matchAtmNameLoop, recordsNamed, h, ih]
      · simp [matchAtmNameLoop, recordsNamed, h, ih]

theorem matchAtmName_eq (p : VdwRadiusProvider) (atmName : String) :
    p.matchAtmName atmName = recordsNamed p.vdwRadiusLookupTable_ atmName := by
  simp [matchAtmName, matchAtmNameLoop_eq]

theorem matchResName_of_find_none (resName : String) (records : List VdwRadiusRecord)
    (h : records.find? (fun rec => rec.resName_ = resName) = none) :
    matchResName resName records = records.length := by
  induction records with
  | nil => rfl
  | cons it rest ih =>
      by_cases hr : it.resName_ = resName
      · simp [List.find?, hr] at h
      · simp only [List.find?, hr, decide_False] at h
        simp [matchResName, hr, ih h]

theorem matchResName_of_find_some (resName : String) (records : List VdwRadiusRecord)
    (rec : VdwRadiusRecord)
    (h : records.find? (fun rec => rec.resName_ = resName) = some rec) :
    matchResName resName records ≠ records.length ∧
      derefVdwRad records (matchResName resName records) = .ok rec.vdwRad_ := by
  induction records with
  | nil => simp at h
  | cons it rest ih =>
      by_cases hr : it.resName_ = resName
      · simp only [List.find?, hr, decide_True, Option.some.injEq] at h
        subst h
        simp [matchResName, hr, derefVdwRad]
      · simp only [List.find?, hr, decide_False] at h
        obtain ⟨h1, h2⟩ := ih h
        refine ⟨by simpa [matchResName, hr] using h1, ?_⟩
        simpa [matchResName, hr, derefVdwRad] using h2

/-- The residue stage of `vdwRadiusForAtom` on a candidate list is the rule of the
specification. -/
theorem residueStage_eq (p : VdwRadiusProvider) (cands : List VdwRadiusRecord)
    (atmName resName : String) :
    (if matchResName resName cands = cands.length then
        (if matchResName "???" cands = cands.length then
          p.returnDefaultRadius atmName resName
        else derefVdwRad cands (matchResName "???" cands))
      else derefVdwRad cands (matchResName resName cands))
      = p.residueRule cands atmName resName := by
  unfold residueRule
  cases h1 : cands.find? (fun rec => rec.resName_ = resName) with
  | some rec =>
      obtain ⟨hne, hd⟩ := matchResName_of_find_some resName cands rec h1
      simp [hne, hd]
  | none =>
      have he := matchResName_of_find_none resName cands h1
      cases h2 : cands.find? (fun rec => rec.resName_ = "???") with
      | some rec =>
          obtain ⟨hne, hd⟩ := matchResName_of_find_some "???" cands rec h2
          simp [he, hne, hd]
      | none =>
          have he2 := matchResName_of_find_none "???" cands h2
          simp [he, he2]

theorem residueRule_nil (p : VdwRadiusProvider) (atmName resName : String) :
    p.residueRule [] atmName resName = p.returnDefaultRadius atmName resName := by
  simp [residueRule]

/-- The whole lookup: the rule applied to the records named like the atom when
there are any, and to the records named like the upper-cased element otherwise. -/
theorem vdwRadiusForAtom_eq (p : VdwRadiusProvider) (atmName resName elemSym : String) :
    p.vdwRadiusForAtom atmName resName elemSym =
      if recordsNamed p.vdwRadiusLookupTable_ atmName ≠ [] then
        p.residueRule (recordsNamed p.vdwRadiusLookupTable_ atmName) atmName resName
      else
        p.residueRule (recordsNamed p.vdwRadiusLookupTable_ (toupper elemSym))
          atmName resName := by
  unfold vdwRadiusForAtom
  simp only [matchAtmName_eq, residueStage_eq]
  by_cases h : recordsNamed p.vdwRadiusLookupTable_ atmName = []
  · simp only [h, List.length_nil, gt_iff_lt, lt_self_iff_false, ↓reduceIte, ne_eq,
      not_true_eq_false]
    by_cases h2 : recordsNamed p.vdwRadiusLookupTable_ (toupper elemSym) = []
    · simp [h2, residueRule_nil]
    · simp [List.length_pos, h2]
  · simp [List.length_pos, h]

theorem recordsNamed_find (table : List VdwRadiusRecord) (atmName resName : String) :
    (recordsNamed table atmName).find? (fun rec => rec.resName_ = resName) =
      table.find? (fun rec => rec.atmName_ = atmName ∧ rec.resName_ = resName) := by
  simp [recordsNamed, List.find?_filter]

theorem recordsNamed_eq_nil (table : List VdwRadiusRecord) (atmName : String) :
    recordsNamed table atmName = [] ↔ ∀ rec ∈ table, rec.atmName_ ≠ atmName := by
  simp [recordsNamed, List.filter_eq_nil_iff]

end VdwRadiusProvider

/-! ## Lookup order of `vdwRadiusForAtom` -/

namespace VdwRadiusProvider

/-- C1: `vdwRadiusForAtom` prefers an exact residue match over a generic one
regardless of table order: if the table contains a record with atom name `a` and
residue name `r`, the call returns the radius of the first such record in table
order, wherever records `(a, "???")` stand in the table. -/
theorem vdwRadiusForAtom_exact_residue (p : VdwRadiusProvider) (a r e : String)
    (rec : VdwRadiusRecord)
    (h : p.vdwRadiusLookupTable_.find? (fun x => x.atmName_ = a ∧ x.resName_ = r) = some rec) :
    p.vdwRadiusForAtom a r e = .ok rec.vdwRad_ := by
  have hf := recordsNamed_find p.vdwRadiusLookupTable_ a r
  rw [h] at hf
  have hne : recordsNamed p.vdwRadiusLookupTable_ a ≠ [] := by
    intro hnil
    rw [hnil] at hf
    simp at hf
  rw [vdwRadiusForAtom_eq, if_pos hne]
  simp [residueRule, hf]

/-- Witness for C1: the generic record stands first in the table, the exact one
is returned. -/
theorem vdwRadiusForAtom_exact_residue_witness :
    ([⟨"CA", "???", 3⟩, ⟨"CA", "ALA", 2⟩, ⟨"CA", "ALA", 5⟩] : List VdwRadiusRecord).find?
        (fun x => x.atmName_ = "CA" ∧ x.resName_ = "ALA") = some ⟨"CA", "ALA", 2⟩ ∧
      vdwRadiusForAtom ⟨-1, [⟨"CA", "???", 3⟩, ⟨"CA", "ALA", 2⟩, ⟨"CA", "ALA", 5⟩]⟩
        "CA" "ALA" "C" = .ok 2 :=
  ⟨by decide,
    vdwRadiusForAtom_exact_residue ⟨-1, [⟨"CA", "???", 3⟩, ⟨"CA", "ALA", 2⟩, ⟨"CA", "ALA", 5⟩]⟩
      "CA" "ALA" "C" ⟨"CA", "ALA", 2⟩ (by decide)⟩

/-- C2: `vdwRadiusForAtom` falls back to the generic residue: if some record has
atom name `a`, no record with atom name `a` has residue name `r`, and the first
record `(a, "???")` of the table is `rec`, the call returns the radius of `rec`,
whatever the default radius is. -/
theorem vdwRadiusForAtom_generic_residue (table : List VdwRadiusRecord) (a r e : String)
    (rec : VdwRadiusRecord)
    (hsome : ∃ x ∈ table, x.atmName_ = a)
    (hnone : ∀ x ∈ table, x.atmName_ = a → x.resName_ ≠ r)
    (h : table.find? (fun x => x.atmName_ = a ∧ x.resName_ = "???") = some rec) :
    ∀ defRad : real, vdwRadiusForAtom ⟨defRad, table⟩ a r e = .ok rec.vdwRad_ := by
  intro defRad
  have hne : recordsNamed table a ≠ [] := by
    rw [ne_eq, recordsNamed_eq_nil]
    obtain ⟨x, hx, hxa⟩ := hsome
    exact fun hall => hall x hx hxa
  have hr : (recordsNamed table a).find? (fun x => x.resName_ = r) = none := by
    rw [recordsNamed_find, List.find?_eq_none]
    intro x hx
    simpa using hnone x hx
  have hg := recordsNamed_find table a "???"
  rw [h] at hg
  rw [vdwRadiusForAtom_eq]
  simp only [hne, ne_eq, not_false_eq_true, ↓reduceIte]
  simp [residueRule, hr, hg]

/-- Witness for C2. -/
theorem vdwRadiusForAtom_generic_residue_witness :
    (∃ x ∈ ([⟨"CA", "GLY", 4⟩, ⟨"CA", "???", 3⟩, ⟨"N", "ALA", 2⟩] : List VdwRadiusRecord),
        x.atmName_ = "CA") ∧
      (∀ x ∈ ([⟨"CA", "GLY", 4⟩, ⟨"CA", "???", 3⟩, ⟨"N", "ALA", 2⟩] : List VdwRadiusRecord),
        x.atmName_ = "CA" → x.resName_ ≠ "ALA") ∧
      ∀ defRad : real,
        vdwRadiusForAtom ⟨defRad, [⟨"CA", "GLY", 4⟩, ⟨"CA", "???", 3⟩, ⟨"N", "ALA", 2⟩]⟩
          "CA" "ALA" "C" = .ok 3 :=
  ⟨by decide, by decide,
    vdwRadiusForAtom_generic_residue [⟨"CA", "GLY", 4⟩, ⟨"CA", "???", 3⟩, ⟨"N", "ALA", 2⟩]
      "CA" "ALA" "C" ⟨"CA", "???", 3⟩ (by decide) (by decide) (by decide)⟩

theorem toupper_eq_toUpper (elemSym : String) : toupper elemSym = elemSym.toUpper := by
  unfold toupper String.toUpper
  rw [String.map_eq]

/-- C3: `vdwRadiusForAtom` falls back to the element symbol: if no record has atom
name `a`, the result (value or error) is the one of the exact-residue, then
`???`, then default rule applied to the records whose atom name is `e` converted
to upper case, the conversion being the library function `String.toUpper`. -/
theorem vdwRadiusForAtom_element_fallback (p : VdwRadiusProvider) (a r e : String)
    (h : ∀ x ∈ p.vdwRadiusLookupTable_, x.atmName_ ≠ a) :
    p.vdwRadiusForAtom a r e =
      p.residueRule (recordsNamed p.vdwRadiusLookupTable_ e.toUpper) a r := by
  have hnil := (recordsNamed_eq_nil p.vdwRadiusLookupTable_ a).mpr h
  rw [vdwRadiusForAtom_eq, toupper_eq_toUpper]
  simp [hnil]

/-- Witness for C3: atom `CA1` is unknown and the element is `c`; the record named
`C` is found, the lower-case record `c` standing before it is not, and the call
returns the radius 3 of the record `C`. -/
theorem vdwRadiusForAtom_element_fallback_witness :
    (∀ x ∈ ([⟨"c", "???", 5⟩, ⟨"C", "???", 3⟩, ⟨"N", "???", 2⟩] : List VdwRadiusRecord),
        x.atmName_ ≠ "CA1") ∧
      vdwRadiusForAtom ⟨-1, [⟨"c", "???", 5⟩, ⟨"C", "???", 3⟩, ⟨"N", "???", 2⟩]⟩
          "CA1" "ALA" "c" =
        residueRule ⟨-1, [⟨"c", "???", 5⟩, ⟨"C", "???", 3⟩, ⟨"N", "???", 2⟩]⟩
          (recordsNamed [⟨"c", "???", 5⟩, ⟨"C", "???", 3⟩, ⟨"N", "???", 2⟩] ("c").toUpper)
          "CA1" "ALA" ∧
      ("c").toUpper = "C" ∧
      vdwRadiusForAtom ⟨-1, [⟨"c", "???", 5⟩, ⟨"C", "???", 3⟩, ⟨"N", "???", 2⟩]⟩
          "CA1" "ALA" "c" = .ok 3 :=
  ⟨by decide,
    vdwRadiusForAtom_element_fallback
      ⟨-1, [⟨"c", "???", 5⟩, ⟨"C", "???", 3⟩, ⟨"N", "???", 2⟩]⟩ "CA1" "ALA" "c" (by decide),
    by rw [← toupper_eq_toUpper]; decide,
    by decide⟩

end VdwRadiusProvider

/-! ## The default radius -/

namespace VdwRadiusProvider

theorem residueRule_cases (p : VdwRadiusProvider) (cands : List VdwRadiusRecord)
    (atmName resName : String) :
    ((∀ x ∈ cands, x.resName_ ≠ resName ∧ x.resName_ ≠ "???") ∧
        p.residueRule cands atmName resName = p.returnDefaultRadius atmName resName) ∨
      (¬ (∀ x ∈ cands, x.resName_ ≠ resName ∧ x.resName_ ≠ "???") ∧
        ∃ x ∈ cands, p.residueRule cands atmName resName = .ok x.vdwRad_) := by
  unfold residueRule
  cases h1 : cands.find? (fun rec => rec.resName_ = resName) with
  | some rec =>
      right
      have hm := List.mem_of_find?_eq_some h1
      have hp := List.find?_some h1
      refine ⟨fun hall => (hall rec hm).1 (by simpa using hp), rec, hm, rfl⟩
  | none =>
      cases h2 : cands.find? (fun rec => rec.resName_ = "???") with
      | some rec =>
          right
          have hm := List.mem_of_find?_eq_some h2
          have hp := List.find?_some h2
          refine ⟨fun hall => (hall rec hm).2 (by simpa using hp), rec, hm, rfl⟩
      | none =>
          left
          rw [List.find?_eq_none] at h1 h2
          refine ⟨fun x hx => ⟨by simpa using h1 x hx, by simpa using h2 x hx⟩, rfl⟩

theorem mem_recordsNamed (table : List VdwRadiusRecord) (atmName : String)
    (x : VdwRadiusRecord) :
    x ∈ recordsNamed table atmName ↔ x ∈ table ∧ x.atmName_ = atmName := by
  simp [recordsNamed]

/-- Either no match is found and the call is `returnDefaultRadius`, or a match is
found and the call returns the radius of a record of the table. -/
theorem vdwRadiusForAtom_cases (p : VdwRadiusProvider) (a r e : String) :
    (NoMatch p.vdwRadiusLookupTable_ a r e ∧
        p.vdwRadiusForAtom a r e = p.returnDefaultRadius a r) ∨
      (¬ NoMatch p.vdwRadiusLookupTable_ a r e ∧
        ∃ x ∈ p.vdwRadiusLookupTable_, p.vdwRadiusForAtom a r e = .ok x.vdwRad_) := by
  rw [vdwRadiusForAtom_eq]
  unfold NoMatch
  by_cases h : recordsNamed p.vdwRadiusLookupTable_ a = []
  · have hno : ¬ ∃ x ∈ p.vdwRadiusLookupTable_, x.atmName_ = a := by
      rw [recordsNamed_eq_nil] at h
      rintro ⟨x, hx, hxa⟩
      exact h x hx hxa
    simp only [h, ne_eq, not_true_eq_false, ↓reduceIte, hno]
    rcases residueRule_cases p (recordsNamed p.vdwRadiusLookupTable_ (toupper e)) a r with
      ⟨hall, heq⟩ | ⟨hnall, x, hx, heq⟩
    · left
      exact ⟨fun x hx hxe => hall x ((mem_recordsNamed _ _ _).mpr ⟨hx, hxe⟩), heq⟩
    · right
      refine ⟨fun hall => hnall fun x hx => ?_, x, ((mem_recordsNamed _ _ _).mp hx).1, heq⟩
      obtain ⟨hx1, hx2⟩ := (mem_recordsNamed _ _ _).mp hx
      exact hall x hx1 hx2
  · have hyes : ∃ x ∈ p.vdwRadiusLookupTable_, x.atmName_ = a := by
      by_contra hcon
      apply h
      rw [recordsNamed_eq_nil]
      intro x hx hxa
      exact hcon ⟨x, hx, hxa⟩
    simp only [h, ne_eq, not_false_eq_true, ↓reduceIte, hyes]
    rcases residueRule_cases p (recordsNamed p.vdwRadiusLookupTable_ a) a r with
      ⟨hall, heq⟩ | ⟨hnall, x, hx, heq⟩
    · left
      exact ⟨fun x hx hxe => hall x ((mem_recordsNamed _ _ _).mpr ⟨hx, hxe⟩), heq⟩
    · right
      refine ⟨fun hall => hnall fun x hx => ?_, x, ((mem_recordsNamed _ _ _).mp hx).1, heq⟩
      obtain ⟨hx1, hx2⟩ := (mem_recordsNamed _ _ _).mp hx
      exact hall x hx1 hx2

theorem lookupTableLoop_defRad (doubleToReal : ℚ → real) (entries : List Json)
    (p : VdwRadiusProvider) :
    (lookupTableLoop doubleToReal entries p).1.defRad_ = p.defRad_ := by
  induction entries generalizing p with
  | nil => rfl
  | cons it rest ih =>
      unfold lookupTableLoop
      cases recordFromJson doubleToReal it with
      | error f => rfl
      | ok rec => simp [ih]

theorem lookupTableFromJson_defRad (p : VdwRadiusProvider) (doubleToReal : ℚ → real)
    (jsonDoc : Json) :
    (p.lookupTableFromJson doubleToReal jsonDoc).1.defRad_ = p.defRad_ := by
  unfold lookupTableFromJson
  split
  · rfl
  · split
    · rfl
    · rfl
    · split
      · rfl
      · simp [lookupTableLoop_defRad]

theorem run_defRadInv (doubleToReal : ℚ → real) (calls : List Call)
    (p0 : VdwRadiusProvider) (log0 : List real)
    (p : VdwRadiusProvider) (log : List real) (h0 : DefRadInv p0 log0)
    (hrun : run doubleToReal p0 calls log0 = some (p, log)) : DefRadInv p log := by
  induction calls generalizing p0 log0 with
  | nil =>
      simp only [run, Option.some.injEq, Prod.mk.injEq] at hrun
      obtain ⟨rfl, rfl⟩ := hrun
      exact h0
  | cons c cs ih =>
      cases c with
      | setDefaultVdwRadius defRad =>
          cases defRad with
          | nan =>
              have he : exec p0 doubleToReal (.setDefaultVdwRadius .nan) =
                  (p0, .error (.runtime_error
                    "Default van der Waals radius may not be negative.")) := rfl
              simp only [run, he] at hrun
              exact ih _ _ h0 hrun
          | num defRad =>
              by_cases hd : defRad ≥ 0
              · have he : exec p0 doubleToReal (.setDefaultVdwRadius (.num defRad)) =
                    ({ p0 with defRad_ := defRad }, .ok ()) := by
                  simp [exec, setDefaultVdwRadius, hd]
                simp only [run, he] at hrun
                refine ih _ _ ?_ hrun
                right
                exact ⟨defRad, by simp, rfl, hd⟩
              · have he : exec p0 doubleToReal (.setDefaultVdwRadius (.num defRad)) =
                    (p0, .error (.runtime_error
                      "Default van der Waals radius may not be negative.")) := by
                  simp [exec, setDefaultVdwRadius, hd]
                simp only [run, he] at hrun
                exact ih _ _ h0 hrun
      | lookupTableFromJson jsonDoc =>
          have hdef := lookupTableFromJson_defRad p0 doubleToReal jsonDoc
          have hinv : DefRadInv (p0.lookupTableFromJson doubleToReal jsonDoc).1 log0 := by
            unfold DefRadInv
            rw [hdef]
            exact h0
          simp only [run, exec] at hrun
          rcases hex : p0.lookupTableFromJson doubleToReal jsonDoc with ⟨p1, out⟩
          rw [hex] at hrun hinv
          cases out with
          | ok u => exact ih _ _ hinv hrun
          | error f =>
              cases f with
              | undefined_behaviour => simp at hrun
              | runtime_error w => exact ih _ _ hinv hrun
              | logic_error w => exact ih _ _ hinv hrun

theorem throws_returnDefaultRadius (p : VdwRadiusProvider) (a r : String) :
    Throws (p.returnDefaultRadius a r) ↔ p.defRad_ < 0 := by
  unfold returnDefaultRadius
  by_cases h : p.defRad_ ≥ 0
  · simp [h, Throws]
  · simp only [h, ↓reduceIte, Throws, true_iff]
    exact lt_of_not_ge h

/-- C4: after any sequence of calls on a freshly constructed provider (the
arguments of `setDefaultVdwRadius` may be NaN, the documents arbitrary, the
conversion from `double` to `real` any), `vdwRadiusForAtom` throws if and only if
no match is found in the lookup table and `setDefaultVdwRadius` has never
returned normally, which is the case exactly when `defRad_` is still `-1`; when
no match is found and a default has been set, the call returns the default set
last.  A freshly constructed provider throws for every query. -/
theorem vdwRadiusForAtom_throws_iff (doubleToReal : ℚ → real) (calls : List Call)
    (p : VdwRadiusProvider) (log : List real) (a r e : String)
    (hrun : run doubleToReal new calls [] = some (p, log)) :
    (Throws (p.vdwRadiusForAtom a r e) ↔
        NoMatch p.vdwRadiusLookupTable_ a r e ∧ log = []) ∧
      (log = [] ↔ p.defRad_ = -1) ∧
      (∀ d, NoMatch p.vdwRadiusLookupTable_ a r e → log.getLast? = some d →
        p.vdwRadiusForAtom a r e = .ok d) ∧
      Throws (new.vdwRadiusForAtom a r e) := by
  have hinv : DefRadInv p log :=
    run_defRadInv doubleToReal calls new [] p log (Or.inl ⟨rfl, rfl⟩) hrun
  have hlog : log = [] ↔ p.defRad_ = -1 := by
    rcases hinv with ⟨h1, h2⟩ | ⟨d, h1, h2, h3⟩
    · simp [h1, h2]
    · constructor
      · intro hnil
        simp [hnil] at h1
      · intro hneg
        rw [h2] at hneg
        linarith
  have hneg : p.defRad_ < 0 ↔ log = [] := by
    rcases hinv with ⟨h1, h2⟩ | ⟨d, h1, h2, h3⟩
    · simp [h1, h2]
    · constructor
      · intro hlt
        rw [h2] at hlt
        linarith
      · intro hnil
        simp [hnil] at h1
  refine ⟨?_, hlog, ?_, ?_⟩
  · rcases vdwRadiusForAtom_cases p a r e with ⟨hno, heq⟩ | ⟨hyes, x, _, heq⟩
    · rw [heq, throws_returnDefaultRadius, hneg]
      simp [hno]
    · rw [heq]
      simp [Throws, hyes]
  · intro d hno hd
    rcases vdwRadiusForAtom_cases p a r e with ⟨_, heq⟩ | ⟨hyes, _⟩
    · rcases hinv with ⟨h1, _⟩ | ⟨d', h1, h2, h3⟩
      · simp [h1] at hd
      · rw [h1] at hd
        cases hd
        rw [heq]
        simp [returnDefaultRadius, h2, h3]
    · exact absurd hno hyes
  · rcases vdwRadiusForAtom_cases new a r e with ⟨_, heq⟩ | ⟨_, x, hx, _⟩
    · rw [heq, throws_returnDefaultRadius]
      simp [new]
    · simp [new] at hx

/-- Witness for C4: a NaN default and a negative default, both rejected, a
table, and an accepted default. -/
theorem vdwRadiusForAtom_throws_iff_witness :
    run id new
        [.setDefaultVdwRadius .nan,
          .setDefaultVdwRadius (.num (-2)),
          .lookupTableFromJson (.object [("vdwradii", .array
            [.object [("atomname", .string "C"), ("resname", .string "???"),
              ("vdwr", .number 3)]])]),
          .setDefaultVdwRadius (.num 2)] [] = some (⟨2, [⟨"C", "???", 3⟩]⟩, [2]) ∧
      ((Throws (vdwRadiusForAtom ⟨2, [⟨"C", "???", 3⟩]⟩ "ZN" "ZN" "Zn") ↔
          NoMatch [⟨"C", "???", 3⟩] "ZN" "ZN" "Zn" ∧ ([2] : List real) = []) ∧
        (([2] : List real) = [] ↔ (2 : real) = -1) ∧
        (∀ d, NoMatch [⟨"C", "???", 3⟩] "ZN" "ZN" "Zn" →
          ([2] : List real).getLast? = some d →
          vdwRadiusForAtom ⟨2, [⟨"C", "???", 3⟩]⟩ "ZN" "ZN" "Zn" = .ok d) ∧
        Throws (new.vdwRadiusForAtom "ZN" "ZN" "Zn")) :=
  ⟨by decide,
    vdwRadiusForAtom_throws_iff id
      [.setDefaultVdwRadius .nan,
        .setDefaultVdwRadius (.num (-2)),
        .lookupTableFromJson (.object [("vdwradii", .array
          [.object [("atomname", .string "C"), ("resname", .string "???"),
            ("vdwr", .number 3)]])]),
        .setDefaultVdwRadius (.num 2)]
      ⟨2, [⟨"C", "???", 3⟩]⟩ [2] "ZN" "ZN" "Zn" (by decide)⟩

/-- C5 as stated fails for NaN: the call throws although `d < 0` is false. -/
theorem setDefaultVdwRadius_nan_throws :
    Throws (setDefaultVdwRadius new .nan).2 ∧ ¬ RealArg.LtZero .nan ∧
      ¬ (Throws (setDefaultVdwRadius new .nan).2 ↔ RealArg.LtZero .nan) := by
  decide

/-- C5, amended: `setDefaultVdwRadius(d)` throws if and only if `d >= 0` is false,
that is if and only if `d < 0` or `d` is NaN; when it throws, the provider is
unchanged; when `d >= 0`, `d` being the number `q`, it returns normally, sets
`defRad_` to `q` and leaves the lookup table unchanged. -/
theorem setDefaultVdwRadius_spec (p : VdwRadiusProvider) (d : RealArg) :
    (Throws (p.setDefaultVdwRadius d).2 ↔ ¬ d.GeZero) ∧
      (¬ d.GeZero ↔ d.LtZero ∨ d = .nan) ∧
      (Throws (p.setDefaultVdwRadius d).2 → (p.setDefaultVdwRadius d).1 = p) ∧
      (d.GeZero → ∃ q, d = .num q ∧ (p.setDefaultVdwRadius d).2 = .ok () ∧
        (p.setDefaultVdwRadius d).1.defRad_ = q ∧
        (p.setDefaultVdwRadius d).1.vdwRadiusLookupTable_ = p.vdwRadiusLookupTable_) := by
  cases d with
  | nan => simp [setDefaultVdwRadius, RealArg.GeZero, RealArg.LtZero, Throws]
  | num q =>
      unfold setDefaultVdwRadius
      by_cases h : q ≥ 0
      · have hn : ¬ q < 0 := not_lt.mpr h
        simp [h, hn, Throws, RealArg.GeZero, RealArg.LtZero]
      · have hn : q < 0 := lt_of_not_ge h
        simp [h, hn, Throws, RealArg.GeZero, RealArg.LtZero]

/-- Witness for C5, amended: a negative default is rejected and the provider,
default and table, is unchanged; the default 2 is accepted. -/
theorem setDefaultVdwRadius_spec_witness :
    (Throws (setDefaultVdwRadius ⟨4, [⟨"C", "???", 3⟩]⟩ (.num (-2))).2 ∧
        (setDefaultVdwRadius ⟨4, [⟨"C", "???", 3⟩]⟩ (.num (-2))).1 = ⟨4, [⟨"C", "???", 3⟩]⟩) ∧
      (RealArg.num 2).GeZero ∧
      ∃ q, RealArg.num 2 = .num q ∧
        (setDefaultVdwRadius ⟨4, [⟨"C", "???", 3⟩]⟩ (.num 2)).2 = .ok () ∧
        (setDefaultVdwRadius ⟨4, [⟨"C", "???", 3⟩]⟩ (.num 2)).1.defRad_ = q ∧
        (setDefaultVdwRadius ⟨4, [⟨"C", "???", 3⟩]⟩ (.num 2)).1.vdwRadiusLookupTable_ =
          [⟨"C", "???", 3⟩] :=
  ⟨⟨by decide,
      (setDefaultVdwRadius_spec ⟨4, [⟨"C", "???", 3⟩]⟩ (.num (-2))).2.2.1 (by decide)⟩,
    by decide,
    (setDefaultVdwRadius_spec ⟨4, [⟨"C", "???", 3⟩]⟩ (.num 2)).2.2.2 (by decide)⟩

/-- A radius returned by `vdwRadiusForAtom` is not negative when no radius of the
lookup table is negative: the default is returned only if it is not negative. -/
theorem vdwRadiusForAtom_nonneg_of_table (p : VdwRadiusProvider)
    (a r e : String) (v : real)
    (htable : ∀ x ∈ p.vdwRadiusLookupTable_, 0 ≤ x.vdwRad_)
    (hv : p.vdwRadiusForAtom a r e = .ok v) : 0 ≤ v := by
  rcases vdwRadiusForAtom_cases p a r e with ⟨_, heq⟩ | ⟨_, x, hx, heq⟩
  · rw [heq] at hv
    unfold returnDefaultRadius at hv
    by_cases h : p.defRad_ ≥ 0
    · simp only [h, ↓reduceIte, Except.ok.injEq] at hv
      rw [← hv]
      exact h
    · simp [h] at hv
  · rw [heq] at hv
    cases hv
    exact htable x hx

end VdwRadiusProvider

/-! ## Loading the lookup table -/

namespace Json

theorem member_object (members : List (String × Json)) (name : String) :
    (object members).member name = FindMember name members := by
  induction members with
  | nil => rfl
  | cons kv rest ih =>
      obtain ⟨k, v⟩ := kv
      by_cases h : k = name
      · simp [member, FindMember, h]
      · simpa [member, FindMember, h] using ih

theorem lacksMember_object (members : List (String × Json)) (name : String)
    (isType : Json → Bool) :
    (object members).lacksMember name isType =
      .ok (match (object members).member name with
        | some m => isType m == false
        | none => true) := by
  rw [member_object]
  unfold lacksMember HasMember getMember
  cases h : FindMember name members <;> simp [h]

theorem lacksMember_not_object (v : Json) (name : String) (isType : Json → Bool)
    (h : v.IsObject = false) : v.lacksMember name isType = .error .undefined_behaviour := by
  cases v <;> simp_all [lacksMember, HasMember, IsObject]

theorem getMember_object_eq (members : List (String × Json)) (name : String) :
    (object members).getMember name =
      match (object members).member name with
      | some m => .ok m
      | none => .error .undefined_behaviour := by
  rw [member_object]
  unfold getMember
  cases h : FindMember name members <;> simp [h]

end Json

namespace VdwRadiusProvider

open Json

/-! ### Reading a name as a C string -/

theorem cString_spec (s : String) : IsCStringOf (cString s) s := by
  refine ⟨?_, s.data.dropWhile (fun c => c ≠ Char.ofNat 0), ?_, ?_⟩
  · intro c hc
    have := List.mem_takeWhile_imp hc
    simpa using this
  · simp [cString]
  · cases hd : s.data.dropWhile (fun c => c ≠ Char.ofNat 0) with
    | nil => exact Or.inl rfl
    | cons c rest =>
        right
        have hnot := List.head?_dropWhile_not (fun c => decide (c ≠ Char.ofNat 0)) s.data
        rw [hd] at hnot
        simp only [List.head?_cons, decide_not, Bool.not_eq_true, Bool.not_eq_false',
          decide_eq_true_eq] at hnot
        simp [hnot]

theorem cPrefix_unique (rest rest' : List Char)
    (hrest : rest = [] ∨ rest.head? = some (Char.ofNat 0))
    (hrest' : rest' = [] ∨ rest'.head? = some (Char.ofNat 0)) :
    ∀ a b : List Char, (∀ c ∈ a, c ≠ Char.ofNat 0) → (∀ c ∈ b, c ≠ Char.ofNat 0) →
      a ++ rest = b ++ rest' → a = b := by
  intro a
  induction a with
  | nil =>
      intro b _ hno' heq
      cases b with
      | nil => rfl
      | cons c b =>
          exfalso
          simp only [List.nil_append, List.cons_append] at heq
          rcases hrest with hnil | hhead
          · rw [hnil] at heq
            cases heq
          · rw [heq] at hhead
            simp only [List.head?_cons, Option.some.injEq] at hhead
            exact hno' c (List.mem_cons_self c b) hhead
  | cons c a ih =>
      intro b hno hno' heq
      cases b with
      | nil =>
          exfalso
          simp only [List.nil_append, List.cons_append] at heq
          rcases hrest' with hnil | hhead
          · rw [hnil] at heq
            cases heq
          · rw [← heq] at hhead
            simp only [List.head?_cons, Option.some.injEq] at hhead
            exact hno c (List.mem_cons_self c a) hhead
      | cons d b =>
          simp only [List.cons_append, List.cons.injEq] at heq
          obtain ⟨hcd, htail⟩ := heq
          subst hcd
          congr 1
          exact ih b (fun x hx => hno x (List.mem_cons_of_mem _ hx))
            (fun x hx => hno' x (List.mem_cons_of_mem _ hx)) htail

theorem isCStringOf_unique (stored stored' full : String) (h : IsCStringOf stored full)
    (h' : IsCStringOf stored' full) : stored = stored' := by
  obtain ⟨hno, rest, heq, hrest⟩ := h
  obtain ⟨hno', rest', heq', hrest'⟩ := h'
  obtain ⟨a⟩ := stored
  obtain ⟨b⟩ := stored'
  simp only at hno hno' heq heq'
  congr 1
  exact cPrefix_unique rest rest' hrest hrest' a b hno hno' (by rw [← heq, ← heq'])

theorem cString_of_no_nul (s : String) (h : ∀ c ∈ s.data, c ≠ Char.ofNat 0) :
    cString s = s := by
  apply isCStringOf_unique (cString s) s s (cString_spec s)
  exact ⟨h, [], by simp, Or.inl rfl⟩

/-- The record that the loop body builds from the triple of an entry. -/
theorem storedFor_mk (doubleToReal : ℚ → real) (t : VdwRadiusRecord) :
    StoredFor doubleToReal t
      ⟨cString t.atmName_, cString t.resName_, doubleToReal t.vdwRad_⟩ :=
  ⟨cString_spec _, cString_spec _, rfl⟩

theorem storedFor_exact (doubleToReal : ℚ → real) (t rec : VdwRadiusRecord)
    (h : StoredFor doubleToReal t rec)
    (ha : ∀ c ∈ t.atmName_.data, c ≠ Char.ofNat 0)
    (hr : ∀ c ∈ t.resName_.data, c ≠ Char.ofNat 0) :
    rec = ⟨t.atmName_, t.resName_, doubleToReal t.vdwRad_⟩ := by
  obtain ⟨h1, h2, h3⟩ := h
  have e1 := isCStringOf_unique _ _ _ h1 ⟨ha, [], by simp, Or.inl rfl⟩
  have e2 := isCStringOf_unique _ _ _ h2 ⟨hr, [], by simp, Or.inl rfl⟩
  obtain ⟨a, r, q⟩ := rec
  obtain ⟨a', r', q'⟩ := t
  simp only at e1 e2 h3
  rw [e1, e2, h3]

/-! ### The loop body -/

/-- On an entry that is an object the loop body either builds the record stored
for the triple of the entry or throws a `runtime_error`. -/
theorem recordFromJson_object (doubleToReal : ℚ → real) (members : List (String × Json)) :
    (∃ t, entryTriple (object members) = some t ∧
        recordFromJson doubleToReal (object members) =
          .ok ⟨cString t.atmName_, cString t.resName_, doubleToReal t.vdwRad_⟩) ∨
      (entryTriple (object members) = none ∧
        ∃ w, recordFromJson doubleToReal (object members) = .error (.runtime_error w)) := by
  unfold recordFromJson entryTriple
  simp only [lacksMember_object, getMember_object_eq]
  generalize (object members).member "atomname" = m1
  generalize (object members).member "resname" = m2
  generalize (object members).member "vdwr" = m3
  rcases m1 with _ | j1
  · simp
  · cases j1 <;> try (simp [IsString]; done)
    rcases m2 with _ | j2
    · simp [IsString]
    · cases j2 <;> try (simp [IsString]; done)
      rcases m3 with _ | j3
      · simp [IsString, IsNumber]
      · cases j3 <;> simp [IsString, IsNumber, GetString, GetDouble, bind, Except.bind]

/-- On an entry that is not an object the first member test fails its library
precondition. -/
theorem recordFromJson_not_object (doubleToReal : ℚ → real) (entry : Json)
    (h : entry.IsObject = false) :
    recordFromJson doubleToReal entry = .error .undefined_behaviour := by
  unfold recordFromJson
  rw [lacksMember_not_object entry "atomname" IsString h]

theorem recordFromJson_of_triple (doubleToReal : ℚ → real) (entry : Json)
    (t : VdwRadiusRecord) (h : entryTriple entry = some t) :
    recordFromJson doubleToReal entry =
      .ok ⟨cString t.atmName_, cString t.resName_, doubleToReal t.vdwRad_⟩ := by
  cases entry with
  | object members =>
      rcases recordFromJson_object doubleToReal members with ⟨t', h1, h2⟩ | ⟨h1, _⟩
      · rw [h1] at h
        cases h
        exact h2
      · rw [h1] at h
        cases h
  | _ => simp [entryTriple, member] at h

/-! ### The loop and the call -/

/-- Over entries that all have their triple the loop returns normally; it appends
one record per entry, in order. -/
theorem lookupTableLoop_of_triples (doubleToReal : ℚ → real) (entries : List Json)
    (p : VdwRadiusProvider) (h : ∀ entry ∈ entries, (entryTriple entry).isSome) :
    lookupTableLoop doubleToReal entries p =
      (⟨p.defRad_, p.vdwRadiusLookupTable_ ++
        (entries.filterMap entryTriple).map (storedRecord doubleToReal)⟩, .ok ()) := by
  induction entries generalizing p with
  | nil => simp [lookupTableLoop]
  | cons it rest ih =>
      have hit := h it (List.mem_cons_self it rest)
      obtain ⟨t, ht⟩ := Option.isSome_iff_exists.mp hit
      have hrest : ∀ entry ∈ rest, (entryTriple entry).isSome :=
        fun entry he => h entry (List.mem_cons_of_mem it he)
      unfold lookupTableLoop
      rw [recordFromJson_of_triple doubleToReal it t ht]
      simp [ih _ hrest, List.filterMap_cons, ht, storedRecord]

/-- The records appended for entries that all have their triple are, entry by
entry, the records stored for the triples. -/
theorem forall₂_storedFor (doubleToReal : ℚ → real) (entries : List Json)
    (h : ∀ entry ∈ entries, (entryTriple entry).isSome) :
    List.Forall₂ (fun entry rec => ∃ t, entryTriple entry = some t ∧
        StoredFor doubleToReal t rec) entries
      ((entries.filterMap entryTriple).map (storedRecord doubleToReal)) := by
  induction entries with
  | nil => exact List.Forall₂.nil
  | cons it rest ih =>
      have hit := h it (List.mem_cons_self it rest)
      obtain ⟨t, ht⟩ := Option.isSome_iff_exists.mp hit
      have hrest : ∀ entry ∈ rest, (entryTriple entry).isSome :=
        fun entry he => h entry (List.mem_cons_of_mem it he)
      simp only [List.filterMap_cons, ht, List.map_cons]
      exact List.Forall₂.cons ⟨t, ht, storedFor_mk doubleToReal t⟩ (ih hrest)

theorem map_some_of_forall₂_exact (doubleToReal : ℚ → real) (entries : List Json)
    (recs : List VdwRadiusRecord)
    (hall : List.Forall₂ (fun entry rec => ∃ t, entryTriple entry = some t ∧
        StoredFor doubleToReal t rec) entries recs)
    (hexact : ∀ entry ∈ entries, ∀ t, entryTriple entry = some t →
      (∀ c ∈ t.atmName_.data, c ≠ Char.ofNat 0) ∧ (∀ c ∈ t.resName_.data, c ≠ Char.ofNat 0)) :
    recs.map some = entries.map (fun entry => (entryTriple entry).map
      (fun t => ⟨t.atmName_, t.resName_, doubleToReal t.vdwRad_⟩)) := by
  induction hall with
  | nil => rfl
  | @cons entry rec rest recs' hhead _ ih =>
      obtain ⟨t, ht, hstored⟩ := hhead
      obtain ⟨ha, hr⟩ := hexact entry (List.mem_cons_self _ _) t ht
      have hrec := storedFor_exact doubleToReal t rec hstored ha hr
      simp only [List.map_cons, ht, hrec, Option.map_some', List.cons.injEq, true_and]
      exact ih fun e he => hexact e (List.mem_cons_of_mem _ he)

/-- The call up to the loop, for a root object whose member `vdwradii` is an
array: the table is cleared and the loop runs over the entries. -/
theorem lookupTableFromJson_of_array (p : VdwRadiusProvider) (doubleToReal : ℚ → real)
    (jsonDoc : Json) (entries : List Json)
    (h : jsonDoc.member "vdwradii" = some (array entries)) :
    p.lookupTableFromJson doubleToReal jsonDoc =
      lookupTableLoop doubleToReal entries ⟨p.defRad_, []⟩ := by
  cases jsonDoc with
  | object members =>
      unfold lookupTableFromJson
      simp [IsObject, lacksMember_object, getMember_object_eq, h, IsArray, elements, bind,
        Except.bind]
  | _ => simp [member] at h

/-- The call on a well-formed document, for every provider. -/
theorem lookupTableFromJson_of_wellFormed (doubleToReal : ℚ → real) (jsonDoc : Json)
    (entries : List Json) (h : WellFormed jsonDoc entries) (q : VdwRadiusProvider) :
    q.lookupTableFromJson doubleToReal jsonDoc =
      (⟨q.defRad_, (entries.filterMap entryTriple).map (storedRecord doubleToReal)⟩,
        .ok ()) := by
  obtain ⟨harr, hall⟩ := h
  rw [lookupTableFromJson_of_array q doubleToReal jsonDoc entries harr,
    lookupTableLoop_of_triples doubleToReal entries _ hall]
  simp

/-- C6, evaluated at the failing input: the document
`{"vdwradii": [{"atomname": "CA", "resname": "???", "vdwr": -1}]}` is loaded
without an error, a default of `1` is set, and the query `("CA", "ALA", "C")`
returns the negative radius `-1`.  This holds for every conversion from `double`
to `real` that keeps the value `-1`. -/
theorem vdwRadiusForAtom_negative_radius (doubleToReal : ℚ → real)
    (hexact : doubleToReal (-1) = -1) :
    run doubleToReal new
        [.lookupTableFromJson (.object [("vdwradii", .array
            [.object [("atomname", .string "CA"), ("resname", .string "???"),
              ("vdwr", .number (-1))]])]),
          .setDefaultVdwRadius (.num 1)] [] = some (⟨1, [⟨"CA", "???", -1⟩]⟩, [1]) ∧
      (lookupTableFromJson new doubleToReal (.object [("vdwradii", .array
            [.object [("atomname", .string "CA"), ("resname", .string "???"),
              ("vdwr", .number (-1))]])])).2 = .ok () ∧
      vdwRadiusForAtom ⟨1, [⟨"CA", "???", -1⟩]⟩ "CA" "ALA" "C" = .ok (-1) ∧
      ¬ (0 : real) ≤ -1 := by
  have h1 : cString "CA" = "CA" := by decide
  have h2 : cString "???" = "???" := by decide
  have hload : ∀ q : VdwRadiusProvider,
      q.lookupTableFromJson doubleToReal (.object [("vdwradii", .array
        [.object [("atomname", .string "CA"), ("resname", .string "???"),
          ("vdwr", .number (-1))]])]) = (⟨q.defRad_, [⟨"CA", "???", -1⟩]⟩, .ok ()) := by
    intro q
    rw [lookupTableFromJson_of_wellFormed doubleToReal
      (.object [("vdwradii", .array
        [.object [("atomname", .string "CA"), ("resname", .string "???"),
          ("vdwr", .number (-1))]])])
      [.object [("atomname", .string "CA"), ("resname", .string "???"),
        ("vdwr", .number (-1))]] ⟨rfl, by simp [entryTriple, member]⟩ q]
    simp [entryTriple, member, storedRecord, h1, h2, hexact]
  refine ⟨?_, by rw [hload], by decide, by decide⟩
  simp [run, exec, hload, setDefaultVdwRadius, new]

/-- Witness for C6: the conversion that changes no value. -/
theorem vdwRadiusForAtom_negative_radius_witness :
    (id (-1 : ℚ) : real) = -1 ∧
      run id new
        [.lookupTableFromJson (.object [("vdwradii", .array
            [.object [("atomname", .string "CA"), ("resname", .string "???"),
              ("vdwr", .number (-1))]])]),
          .setDefaultVdwRadius (.num 1)] [] = some (⟨1, [⟨"CA", "???", -1⟩]⟩, [1]) ∧
      (lookupTableFromJson new id (.object [("vdwradii", .array
            [.object [("atomname", .string "CA"), ("resname", .string "???"),
              ("vdwr", .number (-1))]])])).2 = .ok () ∧
      vdwRadiusForAtom ⟨1, [⟨"CA", "???", -1⟩]⟩ "CA" "ALA" "C" = .ok (-1) ∧
      ¬ (0 : real) ≤ -1 :=
  ⟨rfl, vdwRadiusForAtom_negative_radius id rfl⟩

/-- C7 as stated fails on a well-formed document whose atom name holds a NUL
character: the entry has the triple `("C\x00X", "???", 3)`, the table holds the
record `("C", "???", 3)`. -/
theorem lookupTableFromJson_nul_name :
    WellFormed
        (.object [("vdwradii", .array
          [.object [("atomname", .string "C\x00X"), ("resname", .string "???"),
            ("vdwr", .number 3)]])])
        [.object [("atomname", .string "C\x00X"), ("resname", .string "???"),
            ("vdwr", .number 3)]] ∧
      entryTriple (.object [("atomname", .string "C\x00X"), ("resname", .string "???"),
            ("vdwr", .number 3)]) = some ⟨"C\x00X", "???", 3⟩ ∧
      lookupTableFromJson new id
        (.object [("vdwradii", .array
          [.object [("atomname", .string "C\x00X"), ("resname", .string "???"),
            ("vdwr", .number 3)]])]) = (⟨-1, [⟨"C", "???", 3⟩]⟩, .ok ()) ∧
      ¬ ((lookupTableFromJson new id
        (.object [("vdwradii", .array
          [.object [("atomname", .string "C\x00X"), ("resname", .string "???"),
            ("vdwr", .number 3)]])])).1.vdwRadiusLookupTable_.map some =
        [Json.object [("atomname", .string "C\x00X"), ("resname", .string "???"),
            ("vdwr", .number 3)]].map entryTriple) := by
  refine ⟨⟨rfl, by simp [entryTriple, member]⟩, by decide, by decide, by decide⟩

/-- C7, amended: on a well-formed document `lookupTableFromJson` returns normally
and replaces the lookup table: afterwards the table holds one record per entry
of the `vdwradii` array, in array order and with the same length, whatever the
table held before; the names of the record are the entry's `atomname` and
`resname` read as C strings and its radius is the entry's `vdwr` converted from
`double` to `real`, so that, when no name holds a NUL character, the table is
exactly the list of the `(atomname, resname, converted vdwr)` triples; `defRad_`
is unchanged; loading the same document a second time changes nothing. -/
theorem lookupTableFromJson_wellFormed (p : VdwRadiusProvider) (doubleToReal : ℚ → real)
    (jsonDoc : Json) (entries : List Json) (h : WellFormed jsonDoc entries) :
    (p.lookupTableFromJson doubleToReal jsonDoc).2 = .ok () ∧
      List.Forall₂
        (fun entry rec => ∃ t, entryTriple entry = some t ∧ StoredFor doubleToReal t rec)
        entries (p.lookupTableFromJson doubleToReal jsonDoc).1.vdwRadiusLookupTable_ ∧
      (p.lookupTableFromJson doubleToReal jsonDoc).1.vdwRadiusLookupTable_.length =
        entries.length ∧
      ((∀ entry ∈ entries, ∀ t, entryTriple entry = some t →
          (∀ c ∈ t.atmName_.data, c ≠ Char.ofNat 0) ∧
          (∀ c ∈ t.resName_.data, c ≠ Char.ofNat 0)) →
        (p.lookupTableFromJson doubleToReal jsonDoc).1.vdwRadiusLookupTable_.map some =
          entries.map (fun entry => (entryTriple entry).map
            (fun t => ⟨t.atmName_, t.resName_, doubleToReal t.vdwRad_⟩))) ∧
      (p.lookupTableFromJson doubleToReal jsonDoc).1.defRad_ = p.defRad_ ∧
      (p.lookupTableFromJson doubleToReal jsonDoc).1.lookupTableFromJson doubleToReal jsonDoc =
        p.lookupTableFromJson doubleToReal jsonDoc := by
  have hcall := lookupTableFromJson_of_wellFormed doubleToReal jsonDoc entries h
  have hall := forall₂_storedFor doubleToReal entries h.2
  refine ⟨by rw [hcall], by rw [hcall]; exact hall, ?_, ?_, by rw [hcall], by simp [hcall]⟩
  · rw [hcall]
    exact hall.length_eq.symm
  · intro hexact
    rw [hcall]
    exact map_some_of_forall₂_exact doubleToReal entries _ hall hexact

/-- Witness for C7, amended: two entries, the first with an extra member, loaded
over a table that held another record. -/
theorem lookupTableFromJson_wellFormed_witness :
    WellFormed
        (.object [("vdwradii", .array
          [.object [("note", .null), ("atomname", .string "C"), ("resname", .string "???"),
            ("vdwr", .number 3)],
           .object [("atomname", .string "N"), ("resname", .string "ALA"),
            ("vdwr", .number 2)]])])
        [.object [("note", .null), ("atomname", .string "C"), ("resname", .string "???"),
            ("vdwr", .number 3)],
          .object [("atomname", .string "N"), ("resname", .string "ALA"),
            ("vdwr", .number 2)]] ∧
      lookupTableFromJson ⟨4, [⟨"O", "???", 1⟩]⟩ id
        (.object [("vdwradii", .array
          [.object [("note", .null), ("atomname", .string "C"), ("resname", .string "???"),
            ("vdwr", .number 3)],
           .object [("atomname", .string "N"), ("resname", .string "ALA"),
            ("vdwr", .number 2)]])]) =
        (⟨4, [⟨"C", "???", 3⟩, ⟨"N", "ALA", 2⟩]⟩, .ok ()) ∧
      (lookupTableFromJson ⟨4, [⟨"O", "???", 1⟩]⟩ id
        (.object [("vdwradii", .array
          [.object [("note", .null), ("atomname", .string "C"), ("resname", .string "???"),
            ("vdwr", .number 3)],
           .object [("atomname", .string "N"), ("resname", .string "ALA"),
            ("vdwr", .number 2)]])])).1.vdwRadiusLookupTable_.length = 2 :=
  ⟨⟨rfl, by simp [entryTriple, member]⟩, by decide,
    (lookupTableFromJson_wellFormed ⟨4, [⟨"O", "???", 1⟩]⟩ id
      (.object [("vdwradii", .array
          [.object [("note", .null), ("atomname", .string "C"), ("resname", .string "???"),
            ("vdwr", .number 3)],
           .object [("atomname", .string "N"), ("resname", .string "ALA"),
            ("vdwr", .number 2)]])])
      [.object [("note", .null), ("atomname", .string "C"), ("resname", .string "???"),
            ("vdwr", .number 3)],
          .object [("atomname", .string "N"), ("resname", .string "ALA"),
            ("vdwr", .number 2)]]
      ⟨rfl, by simp [entryTriple, member]⟩).2.2.1⟩

theorem entryTriple_eq_none_iff (entry : Json) :
    entryTriple entry = none ↔
      entry.LacksString "atomname" ∨ entry.LacksString "resname" ∨
        entry.LacksNumber "vdwr" := by
  unfold entryTriple LacksString LacksNumber
  generalize entry.member "atomname" = m1
  generalize entry.member "resname" = m2
  generalize entry.member "vdwr" = m3
  rcases m1 with _ | j1
  · simp
  · cases j1 <;> try (simp; done)
    rcases m2 with _ | j2
    · simp
    · cases j2 <;> try (simp; done)
      rcases m3 with _ | j3
      · simp
      · cases j3 <;> simp

/-- Over entries that are all objects the loop never fails a library
precondition, and it throws exactly when some entry has no triple. -/
theorem lookupTableLoop_objects (doubleToReal : ℚ → real) (entries : List Json)
    (p : VdwRadiusProvider) (hobj : ∀ entry ∈ entries, entry.IsObject = true) :
    (lookupTableLoop doubleToReal entries p).2 ≠ .error .undefined_behaviour ∧
      (Throws (lookupTableLoop doubleToReal entries p).2 ↔
        ∃ entry ∈ entries, entryTriple entry = none) := by
  induction entries generalizing p with
  | nil => simp [lookupTableLoop, Throws]
  | cons it rest ih =>
      have hrest : ∀ entry ∈ rest, entry.IsObject = true :=
        fun entry he => hobj entry (List.mem_cons_of_mem it he)
      have hit := hobj it (List.mem_cons_self it rest)
      cases it with
      | object members =>
          unfold lookupTableLoop
          rcases recordFromJson_object doubleToReal members with ⟨rec, h1, h2⟩ | ⟨h1, w, h2⟩
          · rw [h2]
            simp only [List.mem_cons, exists_eq_or_imp, h1]
            simpa using ih _ hrest
          · rw [h2]
            simp [Throws, h1]
      | _ => simp [IsObject] at hit

/-- Over documents whose `vdwradii` entries are all objects, `lookupTableFromJson`
throws if and only if the document is rejected in the sense of the
specification, and it never fails a library precondition. -/
theorem lookupTableFromJson_throws_iff_of_objects (p : VdwRadiusProvider)
    (doubleToReal : ℚ → real) (jsonDoc : Json)
    (hobj : ∀ entries, jsonDoc.member "vdwradii" = some (array entries) →
      ∀ entry ∈ entries, entry.IsObject = true) :
    (p.lookupTableFromJson doubleToReal jsonDoc).2 ≠ .error .undefined_behaviour ∧
      (Throws (p.lookupTableFromJson doubleToReal jsonDoc).2 ↔ Rejected jsonDoc) := by
  unfold Rejected
  cases jsonDoc with
  | object members =>
      rcases hm : (object members).member "vdwradii" with _ | m
      · simp [lookupTableFromJson, IsObject, lacksMember_object, hm, Throws]
      · by_cases harr : ∃ entries, m = array entries
        · obtain ⟨entries, rfl⟩ := harr
          rw [lookupTableFromJson_of_array p doubleToReal _ entries hm]
          obtain ⟨h1, h2⟩ :=
            lookupTableLoop_objects doubleToReal entries ⟨p.defRad_, []⟩ (hobj entries hm)
          refine ⟨h1, ?_⟩
          rw [h2]
          simp [IsObject, entryTriple_eq_none_iff]
        · have hna : m.IsArray = false := by
            cases m <;> simp_all [IsArray]
          have hne : ∀ entries, m ≠ array entries := fun entries he => harr ⟨entries, he⟩
          simp [lookupTableFromJson, IsObject, lacksMember_object, hm, hna, Throws, hne]
  | _ => simp [lookupTableFromJson, IsObject, Throws]

/-- C8, evaluated at the failing input: the document `{"vdwradii": [1]}` has an
entry that lacks the member `atomname`, so the specification says the call
throws; the call fails the precondition of the member test and throws nothing,
whatever the conversion from `double` to `real` is. -/
theorem lookupTableFromJson_entry_not_object (doubleToReal : ℚ → real) :
    Rejected (.object [("vdwradii", .array [.number 1])]) ∧
      (lookupTableFromJson new doubleToReal
        (.object [("vdwradii", .array [.number 1])])).2 = .error .undefined_behaviour ∧
      ¬ Throws (lookupTableFromJson new doubleToReal
        (.object [("vdwradii", .array [.number 1])])).2 := by
  have hcall : lookupTableFromJson new doubleToReal
      (.object [("vdwradii", .array [.number 1])]) =
      (⟨new.defRad_, []⟩, .error .undefined_behaviour) := by
    rw [lookupTableFromJson_of_array new doubleToReal
      (.object [("vdwradii", .array [.number 1])]) [.number 1] rfl]
    simp [lookupTableLoop, recordFromJson_not_object, IsObject]
  refine ⟨?_, by rw [hcall], by rw [hcall]; decide⟩
  right
  right
  refine ⟨[.number 1], rfl, .number 1, by simp, ?_⟩
  left
  intro s
  simp [member]

end VdwRadiusProvider

/-! ## Radii for a topology -/

namespace VdwRadiusProvider

theorem atomStrings_of_valid (atoms : t_atoms) (id : Int) (h : ValidId atoms id) :
    atomStrings atoms id = .ok (atomName atoms id, residueName atoms id, atomElement atoms id) := by
  obtain ⟨h0, hname, a, ha, hr0, hres⟩ := h
  obtain ⟨n, hn⟩ : ∃ n, atoms.atomname.get? id.toNat = some n :=
    ⟨_, List.get?_eq_get hname⟩
  obtain ⟨res, hres'⟩ : ∃ res, atoms.resinfo.get? a.resind.toNat = some res :=
    ⟨_, List.get?_eq_get hres⟩
  simp only [List.get?_eq_getElem?] at hn ha hres'
  simp [atomStrings, subscript, h0, hn, ha, hr0, hres', atomName, residueName, atomElement]

theorem vdwRadiiLoop_cons (p : VdwRadiusProvider) (atoms : t_atoms) (id : Int)
    (rest : List Int) (vdwRadii : RadiusMap) (h : ValidId atoms id) :
    vdwRadiiLoop p atoms (id :: rest) vdwRadii =
      match p.radiusOfAtom atoms id with
      | .error f => .error f
      | .ok rad => vdwRadiiLoop p atoms rest (vdwRadii.insert id rad) := by
  rw [vdwRadiiLoop, atomStrings_of_valid atoms id h]
  rfl

theorem vdwRadiiLoop_ok (p : VdwRadiusProvider) (atoms : t_atoms) (ids : List Int)
    (vdwRadii : RadiusMap) (hvalid : ∀ id ∈ ids, ValidId atoms id)
    (hok : ∀ id ∈ ids, ∃ v, p.radiusOfAtom atoms id = .ok v) :
    ∃ m, vdwRadiiLoop p atoms ids vdwRadii = .ok m ∧
      (∀ k, k ∈ m ↔ k ∈ vdwRadii ∨ k ∈ ids) ∧
      (∀ id ∈ ids, ∀ v, p.radiusOfAtom atoms id = .ok v → m.lookup id = some v) ∧
      (∀ k, k ∉ ids → m.lookup k = vdwRadii.lookup k) := by
  induction ids generalizing vdwRadii with
  | nil => exact ⟨vdwRadii, rfl, by simp, by simp, by simp⟩
  | cons id rest ih =>
      have hv := hvalid id (List.mem_cons_self id rest)
      obtain ⟨v, hvid⟩ := hok id (List.mem_cons_self id rest)
      obtain ⟨m, hm, hkeys, hvals, hframe⟩ := ih (vdwRadii.insert id v)
        (fun x hx => hvalid x (List.mem_cons_of_mem id hx))
        (fun x hx => hok x (List.mem_cons_of_mem id hx))
      refine ⟨m, ?_, ?_, ?_, ?_⟩
      · rw [vdwRadiiLoop_cons p atoms id rest vdwRadii hv, hvid]
        exact hm
      · intro k
        rw [hkeys k, AList.mem_insert, List.mem_cons]
        tauto
      · intro x hx w hw
        by_cases hxr : x ∈ rest
        · exact hvals x hxr w hw
        · have hxid : x = id := by
            rcases List.mem_cons.mp hx with h | h
            · exact h
            · exact absurd h hxr
          subst hxid
          rw [hvid] at hw
          cases hw
          rw [hframe x hxr, AList.lookup_insert]
      · intro k hk
        have hk1 : k ≠ id := fun h => hk (h ▸ List.mem_cons_self id rest)
        have hk2 : k ∉ rest := fun h => hk (List.mem_cons_of_mem id h)
        rw [hframe k hk2, AList.lookup_insert_ne hk1]

theorem vdwRadiiLoop_error (p : VdwRadiusProvider) (atoms : t_atoms)
    (pre : List Int) (id : Int) (post : List Int) (f : Fault) (vdwRadii : RadiusMap)
    (hvalid : ∀ x ∈ pre ++ id :: post, ValidId atoms x)
    (hpre : ∀ x ∈ pre, ∃ v, p.radiusOfAtom atoms x = .ok v)
    (hid : p.radiusOfAtom atoms id = .error f) :
    vdwRadiiLoop p atoms (pre ++ id :: post) vdwRadii = .error f := by
  induction pre generalizing vdwRadii with
  | nil =>
      rw [List.nil_append, vdwRadiiLoop_cons p atoms id post vdwRadii (hvalid id (by simp)), hid]
  | cons x rest ih =>
      obtain ⟨v, hv⟩ := hpre x (List.mem_cons_self x rest)
      rw [List.cons_append, vdwRadiiLoop_cons p atoms x _ vdwRadii (hvalid x (by simp)), hv]
      exact ih _ (fun y hy => hvalid y (by simp at hy ⊢; tauto))
        (fun y hy => hpre y (List.mem_cons_of_mem x hy))

theorem exists_first_error (rad : Int → Except Fault real) (ids : List Int)
    (h : ∃ id ∈ ids, ∃ f, rad id = .error f) :
    ∃ pre id post f, ids = pre ++ id :: post ∧ (∀ x ∈ pre, ∃ v, rad x = .ok v) ∧
      rad id = .error f := by
  induction ids with
  | nil => simp at h
  | cons x rest ih =>
      cases hx : rad x with
      | error f => exact ⟨[], x, rest, f, rfl, by simp, hx⟩
      | ok v =>
          have hrest : ∃ id ∈ rest, ∃ f, rad id = .error f := by
            obtain ⟨id, hid, f, hf⟩ := h
            rcases List.mem_cons.mp hid with rfl | hmem
            · rw [hx] at hf
              cases hf
            · exact ⟨id, hmem, f, hf⟩
          obtain ⟨pre, id, post, f, heq, hpre, hid⟩ := ih hrest
          refine ⟨x :: pre, id, post, f, by rw [heq]; rfl, ?_, hid⟩
          intro y hy
          rcases List.mem_cons.mp hy with rfl | hmem
          · exact ⟨v, hx⟩
          · exact hpre y hmem

/-- C9: for every topology and every list of valid atom indices: if the lookup
succeeds for every listed atom, `vdwRadiiForTopology` returns a map whose keys
are exactly the listed ids and which maps each id to the radius of
`vdwRadiusForAtom(atom name, residue name, element)` of that atom; if the lookup
fails for some listed atom, the call fails with the error of that lookup (the
first failing one in list order) and returns no map. -/
theorem vdwRadiiForTopology_spec (p : VdwRadiusProvider) (top : TopologyInformation)
    (mappedIds : List Int) (hvalid : ∀ id ∈ mappedIds, ValidId top.atoms id) :
    ((∀ id ∈ mappedIds, ∃ v, p.radiusOfAtom top.atoms id = .ok v) →
        ∃ m, p.vdwRadiiForTopology top mappedIds = .ok m ∧
          (∀ k, k ∈ m ↔ k ∈ mappedIds) ∧
          ∀ id ∈ mappedIds, ∀ v, p.radiusOfAtom top.atoms id = .ok v →
            m.lookup id = some v) ∧
      ((∃ id ∈ mappedIds, ∃ f, p.radiusOfAtom top.atoms id = .error f) →
        ∃ id ∈ mappedIds, ∃ f, p.radiusOfAtom top.atoms id = .error f ∧
          p.vdwRadiiForTopology top mappedIds = .error f) ∧
      (∀ pre id post f, mappedIds = pre ++ id :: post →
        (∀ x ∈ pre, ∃ v, p.radiusOfAtom top.atoms x = .ok v) →
        p.radiusOfAtom top.atoms id = .error f →
        p.vdwRadiiForTopology top mappedIds = .error f) := by
  have hthird : ∀ pre id post f, mappedIds = pre ++ id :: post →
      (∀ x ∈ pre, ∃ v, p.radiusOfAtom top.atoms x = .ok v) →
      p.radiusOfAtom top.atoms id = .error f →
      p.vdwRadiiForTopology top mappedIds = .error f := by
    intro pre id post f heq hpre hid
    subst heq
    exact vdwRadiiLoop_error p top.atoms pre id post f ∅ hvalid hpre hid
  refine ⟨?_, ?_, hthird⟩
  · intro hok
    obtain ⟨m, hm, hkeys, hvals, _⟩ := vdwRadiiLoop_ok p top.atoms mappedIds ∅ hvalid hok
    refine ⟨m, hm, ?_, hvals⟩
    intro k
    rw [hkeys k]
    simp
  · intro hfail
    obtain ⟨pre, id, post, f, heq, hpre, hid⟩ :=
      exists_first_error (p.radiusOfAtom top.atoms) mappedIds hfail
    exact ⟨id, by rw [heq]; simp, f, hid, hthird pre id post f heq hpre hid⟩

/-- Witness for C9: the ids `1, 0, 1` of `sampleTopology`; the map has the keys
`0` and `1`. -/
theorem vdwRadiiForTopology_spec_witness :
    (∀ id ∈ ([1, 0, 1] : List Int), ValidId sampleTopology.atoms id) ∧
      (∀ id ∈ ([1, 0, 1] : List Int), ∃ v, sampleProvider.radiusOfAtom sampleTopology.atoms id = .ok v) ∧
      ∃ m, sampleProvider.vdwRadiiForTopology sampleTopology [1, 0, 1] = .ok m ∧
        (∀ k, k ∈ m ↔ k ∈ ([1, 0, 1] : List Int)) ∧
        ∀ id ∈ ([1, 0, 1] : List Int), ∀ v,
          sampleProvider.radiusOfAtom sampleTopology.atoms id = .ok v → m.lookup id = some v :=
  have hvalid : ∀ id ∈ ([1, 0, 1] : List Int), ValidId sampleTopology.atoms id := by
    intro id hid
    simp only [List.mem_cons, List.mem_singleton, List.not_mem_nil, or_false] at hid
    rcases hid with rfl | rfl | rfl
    · exact ⟨by decide, by decide, ⟨0, "N"⟩, rfl, by decide, by decide⟩
    · exact ⟨by decide, by decide, ⟨0, "C"⟩, rfl, by decide, by decide⟩
    · exact ⟨by decide, by decide, ⟨0, "N"⟩, rfl, by decide, by decide⟩
  have hok : ∀ id ∈ ([1, 0, 1] : List Int),
      ∃ v, sampleProvider.radiusOfAtom sampleTopology.atoms id = .ok v := by
    intro id hid
    simp only [List.mem_cons, List.mem_singleton, List.not_mem_nil, or_false] at hid
    rcases hid with rfl | rfl | rfl
    · exact ⟨2, by decide⟩
    · exact ⟨3, by decide⟩
    · exact ⟨2, by decide⟩
  ⟨hvalid, hok, (vdwRadiiForTopology_spec sampleProvider sampleTopology [1, 0, 1] hvalid).1 hok⟩

end VdwRadiusProvider

/-! ## The bin width of the histogram estimator -/

namespace HistogramDensityEstimator

/-- C10: `setBinWidth(w)` throws if and only if `w ≤ 0`; when it throws, the
stored bin width is unchanged; when `w > 0` it returns normally and the stored
bin width becomes `w`. -/
theorem setBinWidth_spec (h : HistogramDensityEstimator) (w : real) :
    (Throws (h.setBinWidth w).2 ↔ w ≤ 0) ∧
      (Throws (h.setBinWidth w).2 → (h.setBinWidth w).1.binWidth_ = h.binWidth_) ∧
      (0 < w → (h.setBinWidth w).2 = .ok () ∧ (h.setBinWidth w).1.binWidth_ = w) := by
  unfold setBinWidth
  by_cases hw : w ≤ 0
  · have hn : ¬ 0 < w := not_lt.mpr hw
    simp [hw, hn, Throws]
  · have hp : 0 < w := lt_of_not_ge hw
    simp [hw, hp, Throws]

/-- Witness for C10: the width `0` is rejected and the stored width stays `5`;
the width `2` is accepted. -/
theorem setBinWidth_spec_witness :
    (Throws (setBinWidth ⟨5⟩ 0).2 ∧ (setBinWidth ⟨5⟩ 0).1.binWidth_ = 5) ∧
      (0 : real) < 2 ∧ (setBinWidth ⟨5⟩ 2).2 = .ok () ∧ (setBinWidth ⟨5⟩ 2).1.binWidth_ = 2 :=
  ⟨⟨by decide, (setBinWidth_spec ⟨5⟩ 0).2.1 (by decide)⟩, by decide,
    (setBinWidth_spec ⟨5⟩ 2).2.2 (by decide)⟩

end HistogramDensityEstimator

/-! ## The stubbed path finder -/

namespace OptimisedDirectionProbePathFinder

/-- The object is the same after `findPath`, whatever it was before. -/
theorem findPath_state (self : OptimisedDirectionProbePathFinder) :
    (findPath self).1 = self :=
  rfl

/-- C14, evaluated at the failing input: on `sampleFinder`, whose path is empty,
`findPath` only writes `Yo!`; afterwards `path_` and `radii_` are still empty, so
the path holds the initial point zero times, not once. -/
theorem findPath_leaves_path_empty :
    sampleFinder.path_ = [] ∧
      findPath sampleFinder = (sampleFinder, "Yo!\n") ∧
      (findPath sampleFinder).1.path_ = [] ∧
      (findPath sampleFinder).1.radii_ = [] ∧
      (findPath sampleFinder).1.path_.count (findPath sampleFinder).1.initProbePos_ = 0 ∧
      (findPath sampleFinder).1.path_.count (findPath sampleFinder).1.initProbePos_ ≠ 1 := by
  refine ⟨rfl, rfl, rfl, rfl, rfl, ?_⟩
  decide

/-- The value returned by `optimToConfig` is the default-constructed vector,
whatever the state and the members are. -/
theorem optimToConfig_eq (self : OptimisedDirectionProbePathFinder) (configSpacePos : RVec)
    (optimSpacePos : real × real) :
    optimToConfig self configSpacePos optimSpacePos = configSpacePos :=
  rfl

/-- C15, evaluated at the failing input: on `sampleFinder` the states `(0, 0)` and
`(1, 0)` have the distinct plane points `(1, 0, 0)` and `(1, 1, 0)`, and
`optimToConfig` returns the same default-constructed vector for both; whatever
that vector is, one of the two results is not the plane point.  With a
zero-filled vector the zero state is not mapped to the current probe position. -/
theorem optimToConfig_ignores_state :
    (∀ configSpacePos : RVec,
        ¬ (optimToConfig sampleFinder configSpacePos (0, 0) = sampleFinder.planePoint 0 0 ∧
          optimToConfig sampleFinder configSpacePos (1, 0) = sampleFinder.planePoint 1 0)) ∧
      optimToConfig sampleFinder ⟨0, 0, 0⟩ (0, 0) = ⟨0, 0, 0⟩ ∧
      sampleFinder.planePoint 0 0 = sampleFinder.crntProbePos_ ∧
      optimToConfig sampleFinder ⟨0, 0, 0⟩ (0, 0) ≠ sampleFinder.crntProbePos_ := by
  refine ⟨?_, rfl, ?_, ?_⟩
  · rintro configSpacePos ⟨h0, h1⟩
    rw [optimToConfig_eq] at h0 h1
    rw [h0] at h1
    simp [planePoint, sampleFinder] at h1
  · simp [planePoint, sampleFinder]
  · simp [optimToConfig, sampleFinder]

/-- The object is the same after `advanceAndOptimise`, for either direction. -/
theorem advanceAndOptimise_state (self : OptimisedDirectionProbePathFinder)
    (forward : Bool) : advanceAndOptimise self forward = self :=
  rfl

end OptimisedDirectionProbePathFinder

/-! ## The histogram estimate -/

namespace HistogramDensityEstimator

/-- C11: on an estimator whose bin width was never set (the constructor value
zero), `estimate` throws the logic error for every sample vector, with any fuel,
and the sample vector after the call is the one passed in, not sorted. -/
theorem estimate_unset_binWidth {SplineCurve1D : Type}
    (Interp : List real → List real → SplineCurve1D) (fuel : Nat) (samples : List real) :
    new.binWidth_ = 0 ∧
      estimate Interp new fuel samples =
        some (samples,
          .error (.logic_error "Histogram bin width must be a positive number!")) := by
  refine ⟨rfl, ?_⟩
  simp [estimate, new]

/-! ### The breaks -/

theorem equallySpaced_length (start step : real) (n : Nat) :
    (equallySpaced start step n).length = n + 1 := by
  induction n generalizing start with
  | zero => rfl
  | succ n ih => simp [equallySpaced, ih]

theorem equallySpaced_ne_nil (start step : real) (n : Nat) :
    equallySpaced start step n ≠ [] := by
  cases n <;> simp [equallySpaced]

theorem equallySpaced_eq_cons (start step : real) (n : Nat) :
    ∃ tl, equallySpaced start step n = start :: tl := by
  cases n with
  | zero => exact ⟨[], rfl⟩
  | succ n => exact ⟨equallySpaced (start + step) step n, rfl⟩

theorem mem_equallySpaced (start step : real) (n : Nat) (x : real) :
    x ∈ equallySpaced start step n ↔ ∃ k : Nat, k ≤ n ∧ x = start + k * step := by
  induction n generalizing start with
  | zero => simp [equallySpaced]
  | succ n ih =>
      simp only [equallySpaced, List.mem_cons, ih]
      constructor
      · rintro (rfl | ⟨k, hk, rfl⟩)
        · exact ⟨0, by omega, by simp⟩
        · exact ⟨k + 1, by omega, by push_cast; ring⟩
      · rintro ⟨k, hk, rfl⟩
        cases k with
        | zero => left; simp
        | succ k => right; exact ⟨k, by omega, by push_cast; ring⟩

theorem equallySpaced_concat (start step : real) (n : Nat) :
    equallySpaced start step (n + 1) =
      equallySpaced start step n ++ [start + (n + 1 : Nat) * step] := by
  induction n generalizing start with
  | zero => simp [equallySpaced]
  | succ n ih =>
      rw [equallySpaced, ih (start + step)]
      simp only [equallySpaced, List.cons_append, List.cons.injEq, true_and]
      congr 2
      push_cast
      ring

theorem equallySpaced_dropLast (start step : real) (n : Nat) :
    (equallySpaced start step (n + 1)).dropLast = equallySpaced start step n := by
  rw [equallySpaced_concat, List.dropLast_concat]

theorem equallySpaced_getLast (start step : real) (n : Nat) :
    (equallySpaced start step n).getLast? = some (start + n * step) := by
  cases n with
  | zero => simp [equallySpaced]
  | succ n => rw [equallySpaced_concat]; simp

theorem equallySpaced_map_add (start step c : real) (n : Nat) :
    (equallySpaced start step n).map (· + c) = equallySpaced (start + c) step n := by
  induction n generalizing start with
  | zero => rfl
  | succ n ih =>
      simp only [equallySpaced, List.map_cons, ih, List.cons.injEq, true_and]
      congr 1
      ring

theorem equallySpaced_sorted (start step : real) (n : Nat) (hstep : 0 ≤ step) :
    (equallySpaced start step n).Sorted (· ≤ ·) := by
  induction n generalizing start with
  | zero => simp [equallySpaced]
  | succ n ih =>
      rw [equallySpaced, List.sorted_cons]
      refine ⟨?_, ih _⟩
      intro b hb
      obtain ⟨k, _, rfl⟩ := (mem_equallySpaced _ _ _ _).mp hb
      have : (0 : real) ≤ k * step := mul_nonneg (Nat.cast_nonneg k) hstep
      linarith

/-- The loop of `createBreaks` from a last break `b`: if the loop condition holds
for the next `m` breaks and fails for the one after, enough fuel gives the breaks
so far followed by `m` more equally spaced breaks. -/
theorem createBreaksLoop_eq (h : HistogramDensityEstimator) (rangeHi halfBinWidth : real)
    (m : Nat) (pre : List real) (b : real) (fuel : Nat)
    (hle : ∀ j : Nat, j < m → b + j * h.binWidth_ ≤ rangeHi + 3 * halfBinWidth)
    (hgt : rangeHi + 3 * halfBinWidth < b + m * h.binWidth_) (hfuel : m < fuel) :
    createBreaksLoop h rangeHi halfBinWidth fuel (pre ++ [b]) =
      some (pre ++ equallySpaced b h.binWidth_ m) := by
  induction m generalizing pre b fuel with
  | zero =>
      obtain ⟨fuel, rfl⟩ : ∃ f, fuel = f + 1 := ⟨fuel - 1, by omega⟩
      have hnot : ¬ b ≤ rangeHi + 3 * halfBinWidth := by
        simp only [Nat.cast_zero, zero_mul, add_zero] at hgt
        exact not_le.mpr hgt
      simp [createBreaksLoop, List.getLastD_concat, hnot, equallySpaced]
  | succ m ih =>
      obtain ⟨fuel, rfl⟩ : ∃ f, fuel = f + 1 := ⟨fuel - 1, by omega⟩
      have hb : b ≤ rangeHi + 3 * halfBinWidth := by
        have := hle 0 (by omega)
        simpa using this
      have hstep := ih (pre ++ [b]) (b + h.binWidth_) fuel
        (fun j hj => by
          have := hle (j + 1) (by omega)
          push_cast at this
          linarith)
        (by push_cast at hgt; linarith) (by omega)
      simp only [List.append_assoc, List.singleton_append] at hstep
      simp only [createBreaksLoop, List.getLastD_concat, hb, ↓reduceIte, equallySpaced,
        List.append_assoc, List.singleton_append, hstep]

theorem numBins_toNat (lo hi w : real) (hw : 0 < w) (hlohi : lo ≤ hi) :
    (((numBins lo hi w).toNat : Nat) : real) = (⌊(hi - lo) / w⌋ : real) + 4 ∧
      4 ≤ (numBins lo hi w).toNat ∧ ((numBins lo hi w).toNat : Int) = numBins lo hi w := by
  have hF0 : 0 ≤ ⌊(hi - lo) / w⌋ :=
    Int.floor_nonneg.mpr (div_nonneg (sub_nonneg.mpr hlohi) hw.le)
  have hn : ((numBins lo hi w).toNat : Int) = ⌊(hi - lo) / w⌋ + 4 :=
    Int.toNat_of_nonneg (by unfold numBins; omega)
  refine ⟨?_, by omega, hn⟩
  calc (((numBins lo hi w).toNat : Nat) : real)
      = (((numBins lo hi w).toNat : Int) : real) := (Int.cast_natCast _).symm
    _ = ((⌊(hi - lo) / w⌋ + 4 : Int) : real) := by rw [hn]
    _ = (⌊(hi - lo) / w⌋ : real) + 4 := by rw [Int.cast_add]; rfl

/-- With a positive bin width and enough fuel `createBreaks` returns the breaks
`lo - 1.5·w + k·w` for `k = 0, …, floor((hi - lo) / w) + 4`. -/
theorem createBreaks_eq (h : HistogramDensityEstimator) (lo hi : real)
    (hw : 0 < h.binWidth_) (hlohi : lo ≤ hi) (fuel : Nat)
    (hfuel : (numBins lo hi h.binWidth_).toNat < fuel) :
    h.createBreaks fuel lo hi =
      some (equallySpaced (lo - 3 * (1 / 2 * h.binWidth_)) h.binWidth_
        (numBins lo hi h.binWidth_).toNat) := by
  obtain ⟨hcast, _, _⟩ := numBins_toNat lo hi h.binWidth_ hw hlohi
  have hfl := Int.floor_le ((hi - lo) / h.binWidth_)
  have hlt := Int.lt_floor_add_one ((hi - lo) / h.binWidth_)
  rw [le_div_iff₀ hw] at hfl
  rw [div_lt_iff₀ hw] at hlt
  have hloop := createBreaksLoop_eq h hi (1 / 2 * h.binWidth_)
    (numBins lo hi h.binWidth_).toNat [] (lo - 3 * (1 / 2 * h.binWidth_)) fuel
    (fun j hj => by
      have hj' : (j : real) + 1 ≤ ((numBins lo hi h.binWidth_).toNat : real) := by
        exact_mod_cast hj
      have hmul : ((j : real) - 3) * h.binWidth_ ≤
          (⌊(hi - lo) / h.binWidth_⌋ : real) * h.binWidth_ :=
        mul_le_mul_of_nonneg_right (by linarith) hw.le
      nlinarith)
    (by rw [hcast]; nlinarith) hfuel
  simpa [createBreaks] using hloop

/-! ### The sorted samples -/

theorem sort_perm (samples : List real) : (sort samples).Perm samples :=
  List.perm_insertionSort _ samples

theorem sort_sorted (samples : List real) : (sort samples).Sorted (· ≤ ·) :=
  List.sorted_insertionSort _ samples

theorem sorted_le_getLast (l : List real) (hs : l.Sorted (· ≤ ·)) (last : real)
    (hlast : l.getLast? = some last) : ∀ x ∈ l, x ≤ last := by
  obtain ⟨ys, rfl⟩ := List.getLast?_eq_some_iff.mp hlast
  intro x hx
  rcases List.mem_append.mp hx with hy | hy
  · exact (List.pairwise_append.mp hs).2.2 x hy last (by simp)
  · simp only [List.mem_singleton] at hy
    exact hy.le

/-- The first element of the sorted samples is the minimum and the last one the
maximum. -/
theorem sort_head_getLast (samples : List real) (lo hi : real)
    (hlo : lo ∈ samples ∧ ∀ s ∈ samples, lo ≤ s)
    (hhi : hi ∈ samples ∧ ∀ s ∈ samples, s ≤ hi) :
    (sort samples).head? = some lo ∧ (sort samples).getLast? = some hi := by
  have hperm := sort_perm samples
  have hsorted := sort_sorted samples
  have hne : sort samples ≠ [] := by
    intro hnil
    have := hperm.mem_iff.mpr hlo.1
    simp [hnil] at this
  constructor
  · cases hs : sort samples with
    | nil => exact absurd hs hne
    | cons a t =>
        rw [hs] at hsorted hperm
        have ha : a ∈ samples := hperm.mem_iff.mp (List.mem_cons_self a t)
        have h1 : lo ≤ a := hlo.2 a ha
        have h2 : a ≤ lo := by
          rcases List.mem_cons.mp (hperm.mem_iff.mpr hlo.1) with heq | hmem
          · exact heq.ge
          · exact (List.sorted_cons.mp hsorted).1 lo hmem
        simp [le_antisymm h2 h1]
  · obtain ⟨last, hlast⟩ : ∃ last, (sort samples).getLast? = some last := by
      cases hg : (sort samples).getLast? with
      | none => exact absurd (List.getLast?_eq_none_iff.mp hg) hne
      | some last => exact ⟨last, rfl⟩
    have hmem : last ∈ samples :=
      hperm.mem_iff.mp (List.mem_of_getLast?_eq_some hlast)
    have h1 : last ≤ hi := hhi.2 last hmem
    have h2 : hi ≤ last :=
      sorted_le_getLast _ hsorted last hlast hi (hperm.mem_iff.mpr hhi.1)
    rw [hlast, le_antisymm h1 h2]

/-! ### The counts -/

theorem upper_bound_eq_filter (first : List real) (value : real)
    (hs : first.Sorted (· ≤ ·)) :
    upper_bound first value = first.filter (fun s => value < s) := by
  unfold upper_bound
  induction first with
  | nil => rfl
  | cons a t ih =>
      obtain ⟨hall, ht⟩ := List.sorted_cons.mp hs
      by_cases ha : a ≤ value
      · have hna : ¬ value < a := not_lt.mpr ha
        simp [List.dropWhile_cons, List.filter_cons, ha, hna, ih ht]
      · have hva : value < a := lt_of_not_ge ha
        have hrest : t.filter (fun s => value < s) = t :=
          List.filter_eq_self.mpr fun b hb => by
            simpa using lt_of_lt_of_le hva (hall b hb)
        simp [List.dropWhile_cons, List.filter_cons, ha, hva, hrest]

/-- One pass of the counting loop counts the samples of the bin `(b0, b1]`. -/
theorem upper_bound_distance (boundLo : List real) (b0 b1 : real)
    (hs : boundLo.Sorted (· ≤ ·)) :
    (upper_bound boundLo b0).length - (upper_bound (upper_bound boundLo b0) b1).length =
      binCount boundLo b0 b1 := by
  have hs' : (boundLo.filter (fun s => b0 < s)).Sorted (· ≤ ·) := hs.filter _
  rw [upper_bound_eq_filter boundLo b0 hs, upper_bound_eq_filter _ b1 hs']
  have hlen := List.length_eq_countP_add_countP (p := fun s => decide (b1 < s))
    (boundLo.filter (fun s => b0 < s))
  rw [List.countP_eq_length_filter] at hlen
  have hcount : List.countP (fun s => decide ¬ (decide (b1 < s) = true))
      (boundLo.filter (fun s => b0 < s)) = binCount boundLo b0 b1 := by
    rw [List.countP_filter]
    unfold binCount
    apply List.countP_congr
    intro x _
    simp only [decide_eq_true_eq, Bool.and_eq_true, decide_not, Bool.not_eq_true', 
      decide_eq_false_iff_not, not_lt]
    tauto
  omega

theorem binCount_filter (samples : List real) (b0 a b : real) (hab : b0 ≤ a) :
    binCount (samples.filter (fun s => b0 < s)) a b = binCount samples a b := by
  unfold binCount
  rw [List.countP_filter]
  apply List.countP_congr
  intro x _
  simp only [decide_eq_true_eq, Bool.and_eq_true]
  constructor
  · exact fun hx => hx.1
  · exact fun hx => ⟨hx, lt_of_le_of_lt hab hx.1⟩

theorem binCounts_filter (samples : List real) (b0 : real) (breaks : List real)
    (hge : ∀ b ∈ breaks, b0 ≤ b) :
    binCounts (samples.filter (fun s => b0 < s)) breaks = binCounts samples breaks := by
  induction breaks with
  | nil => rfl
  | cons a tl ih =>
      cases tl with
      | nil => rfl
      | cons b rest =>
          simp only [binCounts]
          rw [binCount_filter samples b0 a b (hge a (by simp)),
            ih (fun x hx => hge x (List.mem_cons_of_mem a hx))]

/-- On sorted samples and ascending breaks the counting loop appends the
histogram counts. -/
theorem countLoop_eq (breaks boundLo : List real) (counts : List Nat)
    (hs : boundLo.Sorted (· ≤ ·)) (hb : breaks.Sorted (· ≤ ·)) :
    countLoop breaks boundLo counts = counts ++ binCounts boundLo breaks := by
  induction breaks generalizing boundLo counts with
  | nil => simp [countLoop, binCounts]
  | cons b0 tl ih =>
      cases tl with
      | nil => simp [countLoop, binCounts]
      | cons b1 rest =>
          obtain ⟨hall, htl⟩ := List.sorted_cons.mp hb
          have hs' : (upper_bound boundLo b0).Sorted (· ≤ ·) := by
            rw [upper_bound_eq_filter boundLo b0 hs]
            exact hs.filter _
          simp only [countLoop, binCounts]
          rw [ih (upper_bound boundLo b0) _ hs' htl, upper_bound_distance boundLo b0 b1 hs,
            upper_bound_eq_filter boundLo b0 hs, binCounts_filter boundLo b0 (b1 :: rest) hall]
          simp [binCounts]

theorem binCount_add (samples : List real) (a b c : real) (hab : a ≤ b) (hbc : b ≤ c) :
    binCount samples a b + binCount samples b c = binCount samples a c := by
  unfold binCount
  induction samples with
  | nil => rfl
  | cons x l ih =>
      simp only [List.countP_cons, decide_eq_true_eq]
      have key : (if a < x ∧ x ≤ b then 1 else 0) + (if b < x ∧ x ≤ c then 1 else 0) =
          (if a < x ∧ x ≤ c then 1 else 0) := by
        by_cases h1 : x ≤ b
        · have h2 : ¬ b < x := not_lt.mpr h1
          have h3 : x ≤ c := h1.trans hbc
          simp [h1, h2, h3]
        · have h2 : b < x := lt_of_not_ge h1
          have h3 : a < x := lt_of_le_of_lt hab h2
          simp [h1, h2, h3]
      omega

/-- The counts over ascending breaks add up to the count of the whole range. -/
theorem binCounts_sum (samples : List real) (a : real) (tl : List real) (last : real)
    (hb : (a :: tl).Sorted (· ≤ ·)) (hlast : (a :: tl).getLast? = some last) :
    (binCounts samples (a :: tl)).sum = binCount samples a last := by
  induction tl generalizing a with
  | nil =>
      simp only [List.getLast?_singleton, Option.some.injEq] at hlast
      subst hlast
      simp only [binCounts, binCount, List.sum_nil]
      rw [eq_comm, List.countP_eq_zero]
      intro x _
      simp only [Bool.and_eq_true, decide_eq_true_eq, Bool.decide_and]
      rintro ⟨h1, h2⟩
      exact absurd h2 (not_le.mpr h1)
  | cons b rest ih =>
      obtain ⟨hall, htl⟩ := List.sorted_cons.mp hb
      have hlast' : (b :: rest).getLast? = some last := by
        rw [List.getLast?_cons_cons] at hlast
        exact hlast
      have hbl : b ≤ last :=
        sorted_le_getLast _ htl last hlast' b (List.mem_cons_self b rest)
      simp only [binCounts, List.sum_cons]
      rw [ih b htl hlast', binCount_add samples a b last (hall b (List.mem_cons_self b rest)) hbl]

/-- The histogram counts over equally spaced breaks, bin by bin. -/
theorem binCounts_equallySpaced (samples : List real) (start step : real) (n : Nat) :
    binCounts samples (equallySpaced start step n) =
      (List.range n).map
        (fun i : Nat => binCount samples (start + (i : real) * step)
          (start + ((i : real) + 1) * step)) := by
  induction n generalizing start with
  | zero => rfl
  | succ n ih =>
      obtain ⟨tl, htl⟩ := equallySpaced_eq_cons (start + step) step n
      have hstep := ih (start + step)
      rw [htl] at hstep
      rw [equallySpaced, htl, binCounts, hstep, List.range_succ_eq_map, List.map_cons,
        List.map_map]
      simp only [Nat.cast_zero, zero_mul, add_zero, zero_add, one_mul,
        List.cons.injEq, true_and]
      apply List.map_congr_left
      intro i _
      simp only [Function.comp_apply, Nat.succ_eq_add_one, Nat.cast_add, Nat.cast_one]
      congr 1 <;> ring

theorem binCounts_perm (samples samples' : List real) (hp : samples.Perm samples')
    (breaks : List real) : binCounts samples breaks = binCounts samples' breaks := by
  induction breaks with
  | nil => rfl
  | cons a tl ih =>
      cases tl with
      | nil => rfl
      | cons b rest =>
          simp only [binCounts, ih]
          congr 1
          exact hp.countP_eq _

theorem binCounts_length (samples : List real) (start step : real) (n : Nat) :
    (binCounts samples (equallySpaced start step n)).length = n := by
  rw [binCounts_equallySpaced]
  simp

/-- On sorted samples that lie strictly above the first bin and not above the
lower end of the last bin, the counts over `n ≥ 1` equally spaced bins add up to
the number of samples and the two end counts are zero. -/
theorem binCounts_facts (samples : List real) (b0 w : real) (n : Nat) (hw : 0 < w)
    (hn : 1 ≤ n) (hfirst : ∀ s ∈ samples, b0 + w < s)
    (hlast : ∀ s ∈ samples, s ≤ b0 + ((n : real) - 1) * w) :
    (binCounts samples (equallySpaced b0 w n)).sum = samples.length ∧
      (binCounts samples (equallySpaced b0 w n)).head? = some 0 ∧
      (binCounts samples (equallySpaced b0 w n)).getLast? = some 0 := by
  obtain ⟨k, rfl⟩ : ∃ k, n = k + 1 := ⟨n - 1, by omega⟩
  refine ⟨?_, ?_, ?_⟩
  · obtain ⟨tl, htl⟩ := equallySpaced_eq_cons b0 w (k + 1)
    have hsorted := equallySpaced_sorted b0 w (k + 1) hw.le
    have hgl := equallySpaced_getLast b0 w (k + 1)
    rw [htl] at hsorted hgl ⊢
    rw [binCounts_sum samples b0 tl _ hsorted hgl]
    unfold binCount
    rw [List.countP_eq_length]
    intro s hs
    have h1 := hfirst s hs
    have h2 := hlast s hs
    push_cast at h2 ⊢
    simp only [decide_eq_true_eq]
    constructor
    · linarith
    · nlinarith
  · rw [binCounts_equallySpaced, List.range_succ_eq_map]
    simp only [List.map_cons, List.head?_cons, Option.some.injEq, Nat.cast_zero, zero_mul,
      add_zero, zero_add, one_mul]
    unfold binCount
    rw [List.countP_eq_zero]
    intro s hs
    have h1 := hfirst s hs
    simp only [decide_eq_true_eq, not_and, not_le]
    intro _
    exact h1
  · rw [binCounts_equallySpaced, List.range_succ]
    simp only [List.map_append, List.map_cons, List.map_nil, List.getLast?_concat,
      Option.some.injEq]
    unfold binCount
    rw [List.countP_eq_zero]
    intro s hs
    have h2 := hlast s hs
    push_cast at h2
    simp only [decide_eq_true_eq, not_and, not_le]
    intro h3
    linarith

/-- On such samples `calculateDensity` returns the counts divided by the number of
samples. -/
theorem calculateDensity_eq (samples : List real) (b0 w : real) (n : Nat) (hw : 0 < w)
    (hn : 1 ≤ n) (hs : samples.Sorted (· ≤ ·)) (hfirst : ∀ s ∈ samples, b0 + w < s)
    (hlast : ∀ s ∈ samples, s ≤ b0 + ((n : real) - 1) * w) :
    calculateDensity samples (equallySpaced b0 w n) =
      .ok ((binCounts samples (equallySpaced b0 w n)).map
        (fun c : Nat => (c : real) / (samples.length : real))) := by
  obtain ⟨hsum, hhead, hgl⟩ := binCounts_facts samples b0 w n hw hn hfirst hlast
  have hloop := countLoop_eq (equallySpaced b0 w n) samples [] hs
    (equallySpaced_sorted b0 w n hw.le)
  obtain ⟨tl, htl⟩ := equallySpaced_eq_cons b0 w n
  rw [htl] at hloop hsum hhead hgl ⊢
  simp only [List.nil_append] at hloop
  simp [calculateDensity, hloop, hsum, hhead, hgl]

theorem createMidpoints_equallySpaced (h : HistogramDensityEstimator) (b0 : real) (n : Nat)
    (hn : 1 ≤ n) :
    h.createMidpoints (equallySpaced b0 h.binWidth_ n) =
      equallySpaced (b0 + h.binWidth_) h.binWidth_ (n - 1) := by
  obtain ⟨k, rfl⟩ : ∃ k, n = k + 1 := ⟨n - 1, by omega⟩
  rw [createMidpoints, equallySpaced_dropLast, equallySpaced_map_add]
  rfl

/-! ### The whole estimate -/

/-- With a positive bin width, samples with minimum `lo` and maximum `hi`, and
enough fuel, `estimate` sorts the samples and then either throws the bin limit
error or hands the interpolator equally spaced knots and the histogram density. -/
theorem estimate_eq {SplineCurve1D : Type} (Interp : List real → List real → SplineCurve1D)
    (h : HistogramDensityEstimator) (samples : List real) (lo hi : real)
    (hw : 0 < h.binWidth_) (hlo : lo ∈ samples ∧ ∀ s ∈ samples, lo ≤ s)
    (hhi : hi ∈ samples ∧ ∀ s ∈ samples, s ≤ hi) (fuel : Nat)
    (hfuel : (numBins lo hi h.binWidth_).toNat < fuel) :
    estimate Interp h fuel samples =
      some (sort samples,
        if 25000 < numBins lo hi h.binWidth_ then
          .error (.runtime_error
            "Number of bins exceeds limit for spline interpolation! Need to increase bin width.")
        else
          .ok (Interp
            (equallySpaced (lo - 3 / 2 * h.binWidth_ + h.binWidth_) h.binWidth_
              ((numBins lo hi h.binWidth_).toNat - 1))
            (histogramDensity samples lo h.binWidth_ (numBins lo hi h.binWidth_).toNat))) := by
  have hlohi : lo ≤ hi := hhi.2 lo hlo.1
  obtain ⟨hcast, hn4, hnInt⟩ := numBins_toNat lo hi h.binWidth_ hw hlohi
  obtain ⟨hhead, hglast⟩ := sort_head_getLast samples lo hi hlo hhi
  have hperm := sort_perm samples
  have hbreaks := createBreaks_eq h lo hi hw hlohi fuel hfuel
  have hmid := createMidpoints_equallySpaced h (lo - 3 * (1 / 2 * h.binWidth_))
    (numBins lo hi h.binWidth_).toNat (by omega)
  have hb0 : lo - 3 * (1 / 2 * h.binWidth_) = lo - 3 / 2 * h.binWidth_ := by ring
  rw [hb0] at hbreaks hmid
  have hlt := Int.lt_floor_add_one ((hi - lo) / h.binWidth_)
  rw [div_lt_iff₀ hw] at hlt
  have hdens := calculateDensity_eq (sort samples) (lo - 3 / 2 * h.binWidth_) h.binWidth_
    (numBins lo hi h.binWidth_).toNat hw (by omega) (sort_sorted samples)
    (fun s hs => by
      have := hlo.2 s (hperm.mem_iff.mp hs)
      linarith)
    (fun s hs => by
      have := hhi.2 s (hperm.mem_iff.mp hs)
      rw [hcast]
      linarith)
  have hnn : (numBins lo hi h.binWidth_).toNat - 1 + 1 = (numBins lo hi h.binWidth_).toNat := by
    omega
  have hvalues :
      ((binCounts (sort samples)
          (equallySpaced (lo - 3 / 2 * h.binWidth_) h.binWidth_
            (numBins lo hi h.binWidth_).toNat)).map
        (fun c : Nat => (c : real) / ((sort samples).length : real))).map
          (· * (1 / h.binWidth_)) =
        histogramDensity samples lo h.binWidth_ (numBins lo hi h.binWidth_).toNat := by
    unfold histogramDensity
    rw [List.map_map, binCounts_perm _ _ hperm, hperm.length_eq]
    apply List.map_congr_left
    intro c _
    simp only [Function.comp_apply]
    rw [div_mul_div_comm, mul_one]
  unfold estimate
  simp only [not_le.mpr hw, ↓reduceIte, hhead, hglast, hbreaks, hmid, equallySpaced_length,
    hdens, List.length_map, binCounts_length, hnn, ne_eq, not_true_eq_false, hvalues]
  by_cases hlim : 25000 < numBins lo hi h.binWidth_
  · have hgt : (numBins lo hi h.binWidth_).toNat > 25000 := by omega
    simp [hlim, hgt]
  · have hgt : ¬ (numBins lo hi h.binWidth_).toNat > 25000 := by omega
    simp [hlim, hgt]

theorem sum_map_natCast_div (counts : List Nat) (d : real) :
    (counts.map (fun c : Nat => (c : real) / d)).sum = ((counts.sum : Nat) : real) / d := by
  induction counts with
  | nil => simp
  | cons c l ih => simp [ih, add_div]

/-- The integral of the interpolant over equally spaced knots is the spacing times
the sum of the values less half of the two end values. -/
theorem integralOfInterpolant_equallySpaced (x w : real) (m : Nat) (fs : List real)
    (hlen : fs.length = m + 1) :
    integralOfInterpolant (equallySpaced x w m) fs =
      w * (fs.sum - (fs.headD 0 + fs.getLastD 0) / 2) := by
  induction m generalizing x fs with
  | zero =>
      match fs, hlen with
      | [f], _ =>
          simp only [equallySpaced, integralOfInterpolant, List.sum_cons, List.sum_nil,
            List.headD_cons, List.getLastD_cons, List.getLastD_nil]
          ring
  | succ m ih =>
      match fs, hlen with
      | f0 :: f1 :: rest, hlen =>
          obtain ⟨tl, htl⟩ := equallySpaced_eq_cons (x + w) w m
          have hrec := ih (x + w) (f1 :: rest) (by simpa using hlen)
          rw [htl] at hrec
          rw [equallySpaced, htl, integralOfInterpolant, hrec]
          simp only [List.sum_cons, List.headD_cons, List.getLastD_cons]
          ring

/-- The histogram density of samples with minimum `lo` and maximum `hi`: one value
per bin, the values add up to `1 / w`, and the two end values are zero. -/
theorem histogramDensity_facts (samples : List real) (lo hi w : real) (hw : 0 < w)
    (hlo : lo ∈ samples ∧ ∀ s ∈ samples, lo ≤ s)
    (hhi : hi ∈ samples ∧ ∀ s ∈ samples, s ≤ hi) :
    (histogramDensity samples lo w (numBins lo hi w).toNat).length =
        (numBins lo hi w).toNat ∧
      (histogramDensity samples lo w (numBins lo hi w).toNat).sum = 1 / w ∧
      (histogramDensity samples lo w (numBins lo hi w).toNat).head? = some 0 ∧
      (histogramDensity samples lo w (numBins lo hi w).toNat).getLast? = some 0 := by
  have hlohi : lo ≤ hi := hhi.2 lo hlo.1
  obtain ⟨hcast, hn4, _⟩ := numBins_toNat lo hi w hw hlohi
  have hlt := Int.lt_floor_add_one ((hi - lo) / w)
  rw [div_lt_iff₀ hw] at hlt
  obtain ⟨hsum, hhead, hgl⟩ := binCounts_facts samples (lo - 3 / 2 * w) w
    (numBins lo hi w).toNat hw (by omega)
    (fun s hs => by
      have := hlo.2 s hs
      linarith)
    (fun s hs => by
      have := hhi.2 s hs
      rw [hcast]
      linarith)
  have hN : (0 : real) < samples.length := by
    exact_mod_cast List.length_pos_of_mem hlo.1
  unfold histogramDensity
  refine ⟨by simp [binCounts_length], ?_, ?_, ?_⟩
  · rw [sum_map_natCast_div, hsum]
    field_simp
  · rw [List.head?_map, hhead]
    simp
  · rw [List.getLast?_map, hgl]
    simp

/-- In exact arithmetic only (the source rounds every sum and product to `real`,
which this statement does not cover): for every non-empty sample vector (minimum
`lo`, maximum `hi`) and bin width `w > 0` within the bin limit, `estimate` with
enough fuel returns normally and hands the interpolator equally spaced knots
(spacing `w`) together with the values `count_i / (N · w)`; the values sum to `1 / w`, so the values times `w` sum
to one; the first and the last value are zero; and the integral of the
piecewise-linear interpolant through these knots is exactly one. -/
theorem estimate_normalised {SplineCurve1D : Type}
    (Interp : List real → List real → SplineCurve1D)
    (h : HistogramDensityEstimator) (samples : List real) (lo hi : real)
    (hw : 0 < h.binWidth_) (hlo : lo ∈ samples ∧ ∀ s ∈ samples, lo ≤ s)
    (hhi : hi ∈ samples ∧ ∀ s ∈ samples, s ≤ hi)
    (hlimit : numBins lo hi h.binWidth_ ≤ 25000) :
    (∀ fuel, (numBins lo hi h.binWidth_).toNat < fuel →
        estimate Interp h fuel samples =
          some (sort samples,
            .ok (Interp
              (equallySpaced (lo - 3 / 2 * h.binWidth_ + h.binWidth_) h.binWidth_
                ((numBins lo hi h.binWidth_).toNat - 1))
              (histogramDensity samples lo h.binWidth_ (numBins lo hi h.binWidth_).toNat)))) ∧
      histogramDensity samples lo h.binWidth_ (numBins lo hi h.binWidth_).toNat =
        (List.range (numBins lo hi h.binWidth_).toNat).map
          (fun i : Nat =>
            (binCount samples (lo - 3 / 2 * h.binWidth_ + (i : real) * h.binWidth_)
              (lo - 3 / 2 * h.binWidth_ + ((i : real) + 1) * h.binWidth_) : real) /
              ((samples.length : real) * h.binWidth_)) ∧
      (histogramDensity samples lo h.binWidth_ (numBins lo hi h.binWidth_).toNat).sum =
        1 / h.binWidth_ ∧
      ((histogramDensity samples lo h.binWidth_ (numBins lo hi h.binWidth_).toNat).map
        (· * h.binWidth_)).sum = 1 ∧
      (histogramDensity samples lo h.binWidth_ (numBins lo hi h.binWidth_).toNat).head? =
        some 0 ∧
      (histogramDensity samples lo h.binWidth_ (numBins lo hi h.binWidth_).toNat).getLast? =
        some 0 ∧
      integralOfInterpolant
        (equallySpaced (lo - 3 / 2 * h.binWidth_ + h.binWidth_) h.binWidth_
          ((numBins lo hi h.binWidth_).toNat - 1))
        (histogramDensity samples lo h.binWidth_ (numBins lo hi h.binWidth_).toNat) = 1 := by
  have hlohi : lo ≤ hi := hhi.2 lo hlo.1
  obtain ⟨_, hn4, _⟩ := numBins_toNat lo hi h.binWidth_ hw hlohi
  obtain ⟨hlen, hsum, hhead, hgl⟩ := histogramDensity_facts samples lo hi h.binWidth_ hw hlo hhi
  refine ⟨?_, ?_, hsum, ?_, hhead, hgl, ?_⟩
  · intro fuel hfuel
    rw [estimate_eq Interp h samples lo hi hw hlo hhi fuel hfuel]
    simp [not_lt.mpr hlimit]
  · unfold histogramDensity
    rw [binCounts_equallySpaced, List.map_map]
    rfl
  · rw [List.sum_map_mul_right, List.map_id', hsum]
    field_simp
  · rw [integralOfInterpolant_equallySpaced _ _ _ _ (by rw [hlen]; omega), hsum,
      List.headD_eq_head?_getD, List.getLastD_eq_getLast?, hhead, hgl]
    simp only [Option.getD_some, add_zero, zero_div, sub_zero]
    field_simp

/-- An instance of `estimate_normalised`: the samples `1, 0` with bin width `1`:
five bins, and the interpolant integrates to one. -/
theorem estimate_normalised_witness :
    (0 : real) < (HistogramDensityEstimator.mk 1).binWidth_ ∧
      ((0 : real) ∈ [(1 : real), 0] ∧ ∀ s ∈ [(1 : real), 0], 0 ≤ s) ∧
      ((1 : real) ∈ [(1 : real), 0] ∧ ∀ s ∈ [(1 : real), 0], s ≤ 1) ∧
      numBins 0 1 (HistogramDensityEstimator.mk 1).binWidth_ ≤ 25000 ∧
      (histogramDensity [1, 0] 0 (HistogramDensityEstimator.mk 1).binWidth_
        (numBins 0 1 (HistogramDensityEstimator.mk 1).binWidth_).toNat).sum =
        1 / (HistogramDensityEstimator.mk 1).binWidth_ ∧
      integralOfInterpolant
        (equallySpaced
          (0 - 3 / 2 * (HistogramDensityEstimator.mk 1).binWidth_ +
            (HistogramDensityEstimator.mk 1).binWidth_)
          (HistogramDensityEstimator.mk 1).binWidth_
          ((numBins 0 1 (HistogramDensityEstimator.mk 1).binWidth_).toNat - 1))
        (histogramDensity [1, 0] 0 (HistogramDensityEstimator.mk 1).binWidth_
          (numBins 0 1 (HistogramDensityEstimator.mk 1).binWidth_).toNat) = 1 :=
  have hw : (0 : real) < (HistogramDensityEstimator.mk 1).binWidth_ := by norm_num
  have hlo : (0 : real) ∈ [(1 : real), 0] ∧ ∀ s ∈ [(1 : real), 0], 0 ≤ s := by
    constructor
    · simp
    · intro s hs
      simp only [List.mem_cons, List.mem_singleton, List.not_mem_nil, or_false] at hs
      rcases hs with rfl | rfl <;> norm_num
  have hhi : (1 : real) ∈ [(1 : real), 0] ∧ ∀ s ∈ [(1 : real), 0], s ≤ 1 := by
    constructor
    · simp
    · intro s hs
      simp only [List.mem_cons, List.mem_singleton, List.not_mem_nil, or_false] at hs
      rcases hs with rfl | rfl <;> norm_num
  have hlimit : numBins 0 1 (HistogramDensityEstimator.mk 1).binWidth_ ≤ 25000 := by
    norm_num [numBins]
  ⟨hw, hlo, hhi, hlimit,
    (estimate_normalised (Prod.mk : List real → List real → List real × List real)
      (HistogramDensityEstimator.mk 1) [1, 0] 0 1 hw hlo hhi hlimit).2.2.1,
    (estimate_normalised (Prod.mk : List real → List real → List real × List real)
      (HistogramDensityEstimator.mk 1) [1, 0] 0 1 hw hlo hhi hlimit).2.2.2.2.2.2⟩

/-- In exact arithmetic only (the source rounds every sum and product to `real`,
which this statement does not cover): for every non-empty sample vector with
minimum `lo` and maximum `hi` and every bin width `w > 0`, `createBreaks` with
enough fuel returns
`floor((hi - lo) / w) + 5` breaks, so the number of bins (midpoints) is
`floor((hi - lo) / w) + 4`, and `estimate` throws, and what it throws is the
'number of bins exceeds limit' runtime error, if and only if that number is
greater than 25000. -/
theorem estimate_bin_limit {SplineCurve1D : Type}
    (Interp : List real → List real → SplineCurve1D)
    (h : HistogramDensityEstimator) (samples : List real) (lo hi : real)
    (hw : 0 < h.binWidth_) (hlo : lo ∈ samples ∧ ∀ s ∈ samples, lo ≤ s)
    (hhi : hi ∈ samples ∧ ∀ s ∈ samples, s ≤ hi) (fuel : Nat)
    (hfuel : (numBins lo hi h.binWidth_).toNat < fuel) :
    numBins lo hi h.binWidth_ = ⌊(hi - lo) / h.binWidth_⌋ + 4 ∧
      (∃ breaks, h.createBreaks fuel lo hi = some breaks ∧
        (breaks.length : Int) - 1 = numBins lo hi h.binWidth_ ∧
        ((h.createMidpoints breaks).length : Int) = numBins lo hi h.binWidth_) ∧
      ∃ out, estimate Interp h fuel samples = some (sort samples, out) ∧
        (out = .error (.runtime_error
            "Number of bins exceeds limit for spline interpolation! Need to increase bin width.") ↔
          25000 < numBins lo hi h.binWidth_) ∧
        (Throws out ↔ 25000 < numBins lo hi h.binWidth_) := by
  have hlohi : lo ≤ hi := hhi.2 lo hlo.1
  obtain ⟨_, hn4, hnInt⟩ := numBins_toNat lo hi h.binWidth_ hw hlohi
  refine ⟨rfl, ?_, ?_⟩
  · refine ⟨_, createBreaks_eq h lo hi hw hlohi fuel hfuel, ?_, ?_⟩
    · rw [equallySpaced_length]
      push_cast
      omega
    · rw [createMidpoints_equallySpaced h _ _ (by omega), equallySpaced_length]
      omega
  · rw [estimate_eq Interp h samples lo hi hw hlo hhi fuel hfuel]
    by_cases hlim : 25000 < numBins lo hi h.binWidth_
    · exact ⟨_, rfl, by simp [hlim], by simp [hlim, Throws]⟩
    · exact ⟨_, rfl, by simp [hlim], by simp [hlim, Throws]⟩

/-- An instance of `estimate_bin_limit`: the samples `1, 0` with bin width `1` and
fuel `6`. -/
theorem estimate_bin_limit_witness :
    (0 : real) < (HistogramDensityEstimator.mk 1).binWidth_ ∧
      (numBins 0 1 (HistogramDensityEstimator.mk 1).binWidth_).toNat < 6 ∧
      numBins 0 1 (HistogramDensityEstimator.mk 1).binWidth_ =
        ⌊((1 : real) - 0) / (HistogramDensityEstimator.mk 1).binWidth_⌋ + 4 ∧
      ∃ breaks, (HistogramDensityEstimator.mk 1).createBreaks 6 0 1 = some breaks ∧
        (breaks.length : Int) - 1 = numBins 0 1 (HistogramDensityEstimator.mk 1).binWidth_ ∧
        (((HistogramDensityEstimator.mk 1).createMidpoints breaks).length : Int) =
          numBins 0 1 (HistogramDensityEstimator.mk 1).binWidth_ :=
  have hw : (0 : real) < (HistogramDensityEstimator.mk 1).binWidth_ := by norm_num
  have hlo : (0 : real) ∈ [(1 : real), 0] ∧ ∀ s ∈ [(1 : real), 0], 0 ≤ s := by
    constructor
    · simp
    · intro s hs
      simp only [List.mem_cons, List.mem_singleton, List.not_mem_nil, or_false] at hs
      rcases hs with rfl | rfl <;> norm_num
  have hhi : (1 : real) ∈ [(1 : real), 0] ∧ ∀ s ∈ [(1 : real), 0], s ≤ 1 := by
    constructor
    · simp
    · intro s hs
      simp only [List.mem_cons, List.mem_singleton, List.not_mem_nil, or_false] at hs
      rcases hs with rfl | rfl <;> norm_num
  have hfuel : (numBins 0 1 (HistogramDensityEstimator.mk 1).binWidth_).toNat < 6 := by
    norm_num [numBins]
  ⟨hw, hfuel,
    (estimate_bin_limit (Prod.mk : List real → List real → List real × List real)
      (HistogramDensityEstimator.mk 1) [1, 0] 0 1 hw hlo hhi 6 hfuel).1,
    (estimate_bin_limit (Prod.mk : List real → List real → List real × List real)
      (HistogramDensityEstimator.mk 1) [1, 0] 0 1 hw hlo hhi 6 hfuel).2.1⟩

end HistogramDensityEstimator

end Chap
